import Mathlib

/-!
# Shallow embedding of the tokscale core (aggregator.rs, pricing.rs)

Conventions of the embedding:
* `i64` / `i32` values are modelled as `ℤ`; the explicit `saturating_add`
  calls of the source are modelled as exact addition followed by a clamp to
  the machine range; plain machine `+` (which would panic on overflow in a
  debug build and is exercised far below the bounds) is modelled as exact
  integer addition.
* `f64` arithmetic is modelled by exact rationals `ℚ` (`f64::MAX` is kept as
  its exact rational value where the code compares against it); the `as i64`
  float-to-integer cast is modelled as truncation toward zero followed by a
  saturating clamp, which is the Rust semantics.
* `HashMap` accumulation (`entry(..).or_default()` folds) is modelled by the
  sequential specialization: an association list updated in encounter order.
* Rust `str::to_lowercase` is modelled by ASCII lowercasing (all model ids
  involved are ASCII); `str::contains` is byte/char substring containment.
-/

def i64Min : ℤ := -9223372036854775808
def i64Max : ℤ := 9223372036854775807
def i32Min : ℤ := -2147483648
def i32Max : ℤ := 2147483647

/-- Clamp into the `i64` range. -/
def clamp64 (x : ℤ) : ℤ := max i64Min (min i64Max x)

/-- Clamp into the `i32` range. -/
def clamp32 (x : ℤ) : ℤ := max i32Min (min i32Max x)

/-- Rust `i64::saturating_add`. -/
def satAdd64 (a b : ℤ) : ℤ := clamp64 (a + b)

/-- Rust `i32::saturating_add`. -/
def satAdd32 (a b : ℤ) : ℤ := clamp32 (a + b)

/-- Rust `x.clamp(lo, hi)` (for `lo ≤ hi`). -/
def clampRange (x lo hi : ℤ) : ℤ := min hi (max lo x)

/-- Truncation of a rational toward zero (what Rust's float `as i64` does
before saturating at the integer bounds). -/
def truncQ (q : ℚ) : ℤ := q.num.tdiv q.den

/-- Rust `f64 as i64`: truncate toward zero, saturating at the `i64` bounds. -/
def f64AsI64 (q : ℚ) : ℤ := clamp64 (truncQ q)

/-- The exact rational value of `f64::MAX`. -/
def f64Max : ℚ := 2 ^ 1024 - 2 ^ 971

/-- `TokenBreakdown` (five `i64` counters). -/
structure TokenBreakdown where
  input : ℤ
  output : ℤ
  cache_read : ℤ
  cache_write : ℤ
  reasoning : ℤ
deriving DecidableEq, Repr

def TokenBreakdown.zero : TokenBreakdown := ⟨0, 0, 0, 0, 0⟩

/-- Pointwise saturating add of two breakdowns, as the five
`saturating_add` lines of `add_message` / `merge` do. -/
def TokenBreakdown.satAdd (a b : TokenBreakdown) : TokenBreakdown where
  input := satAdd64 a.input b.input
  output := satAdd64 a.output b.output
  cache_read := satAdd64 a.cache_read b.cache_read
  cache_write := satAdd64 a.cache_write b.cache_write
  reasoning := satAdd64 a.reasoning b.reasoning

/-- `UnifiedMessage` (sessions.rs): one usage event. -/
structure UnifiedMessage where
  source : String
  model_id : String
  provider_id : String
  session_id : String
  timestamp : ℤ
  date : String
  tokens : TokenBreakdown
  cost : ℚ
deriving DecidableEq, Repr

/-- The saturating five-way total computed in `add_message`
(`msg.tokens.input.saturating_add(..)...`). -/
def UnifiedMessage.totalTokens (m : UnifiedMessage) : ℤ :=
  satAdd64 (satAdd64 (satAdd64 (satAdd64 m.tokens.input m.tokens.output)
    m.tokens.cache_read) m.tokens.cache_write) m.tokens.reasoning

/-- `RateStats` (tokens per minute). -/
structure RateStats where
  avg_tokens_per_min : ℚ
  max_tokens_per_min : ℚ
  min_tokens_per_min : ℚ
deriving DecidableEq, Repr

/-- `IntervalBucket`. -/
structure IntervalBucket where
  start_ms : ℤ
  end_ms : ℤ
  token_breakdown : TokenBreakdown
  messages : ℤ
  cost_micros : ℤ
  rate_stats : Option RateStats
deriving DecidableEq, Repr

/-- `IntervalAccumulator` (aggregator.rs). -/
structure IntervalAccumulator where
  token_breakdown : TokenBreakdown := TokenBreakdown.zero
  messages : ℤ := 0
  cost : ℚ := 0
  message_data : List (ℤ × ℤ) := []
deriving DecidableEq, Repr

def IntervalAccumulator.empty : IntervalAccumulator := {}

/-- `IntervalAccumulator::add_message`. -/
def IntervalAccumulator.add_message (a : IntervalAccumulator) (m : UnifiedMessage) :
    IntervalAccumulator where
  token_breakdown := a.token_breakdown.satAdd m.tokens
  messages := a.messages + 1
  cost := a.cost + m.cost
  message_data := a.message_data ++ [(m.timestamp, m.totalTokens)]

/-- `IntervalAccumulator::merge`. -/
def IntervalAccumulator.merge (a b : IntervalAccumulator) : IntervalAccumulator where
  token_breakdown := a.token_breakdown.satAdd b.token_breakdown
  messages := a.messages + b.messages
  cost := a.cost + b.cost
  message_data := a.message_data ++ b.message_data

/-- The rates computed for each consecutive pair in the sorted
`message_data` (`calculate_rate_stats`'s loop body):
`dt = (ts2 - ts1).clamp(5000, 1800000)`, `rate = tokens2 / (dt / 60000)`. -/
def consecRates : List (ℤ × ℤ) → List ℚ
  | p :: q :: rest =>
    ((q.2 : ℚ) / ((clampRange (q.1 - p.1) 5000 1800000 : ℤ) / 60000 : ℚ)) ::
      consecRates (q :: rest)
  | _ => []

/-- `IntervalAccumulator::calculate_rate_stats`. -/
def IntervalAccumulator.calculate_rate_stats (a : IntervalAccumulator)
    (interval_ms : ℤ) : Option RateStats :=
  if a.message_data = [] then none
  else
    let total_tokens : ℤ := a.token_breakdown.input + a.token_breakdown.output +
      a.token_breakdown.cache_read + a.token_breakdown.cache_write +
      a.token_breakdown.reasoning
    let interval_minutes : ℚ := (interval_ms : ℚ) / 60000
    let avg_tokens_per_min : ℚ := (total_tokens : ℚ) / interval_minutes
    if a.message_data.length = 1 then
      some ⟨avg_tokens_per_min, avg_tokens_per_min, avg_tokens_per_min⟩
    else
      let sorted := a.message_data.mergeSort (fun p q => decide (p.1 ≤ q.1))
      let rates := consecRates sorted
      let max_rate : ℚ := rates.foldl max 0
      let min_rate : ℚ := rates.foldl min f64Max
      let min_rate := if min_rate = f64Max then avg_tokens_per_min else min_rate
      some ⟨avg_tokens_per_min, max max_rate avg_tokens_per_min,
        min min_rate avg_tokens_per_min⟩

/-- `IntervalAccumulator::into_bucket`. -/
def IntervalAccumulator.into_bucket (a : IntervalAccumulator)
    (start_ms interval_ms : ℤ) : IntervalBucket where
  start_ms := start_ms
  end_ms := start_ms + interval_ms
  token_breakdown := a.token_breakdown
  messages := a.messages
  cost_micros := f64AsI64 (a.cost * 1000000)
  rate_stats := a.calculate_rate_stats interval_ms

/-- `(msg.timestamp / interval_ms_i64) * interval_ms_i64`: Rust `i64`
division truncates toward zero, which is `Int.tdiv`. -/
def bucketStart (ts interval_ms : ℤ) : ℤ := ts.tdiv interval_ms * interval_ms

/-- The map built by the fold at aggregator.rs:68-86, read at one key:
all messages whose bucket start is `s`, folded with `add_message` in
encounter order (sequential specialization of the rayon fold/reduce);
`None` when no message falls in the bucket. -/
def bucketAccumulator (msgs : List UnifiedMessage) (s interval_ms : ℤ) :
    Option IntervalAccumulator :=
  let grp := msgs.filter (fun m => bucketStart m.timestamp interval_ms == s)
  if grp = [] then none
  else some (grp.foldl IntervalAccumulator.add_message IntervalAccumulator.empty)

/-- The fold at aggregator.rs:52-62 computing the minimum timestamp,
starting from `i64::MAX`. -/
def minTimestamp (msgs : List UnifiedMessage) : ℤ :=
  (msgs.map (·.timestamp)).foldl min i64Max

/-- The fold at aggregator.rs:52-62 computing the maximum timestamp,
starting from `i64::MIN`. -/
def maxTimestamp (msgs : List UnifiedMessage) : ℤ :=
  (msgs.map (·.timestamp)).foldl max i64Min

/-- The all-zero bucket produced for a gap (aggregator.rs:93-100). -/
def emptyIntervalBucket (s interval_ms : ℤ) : IntervalBucket where
  start_ms := s
  end_ms := s + interval_ms
  token_breakdown := TokenBreakdown.zero
  messages := 0
  cost_micros := 0
  rate_stats := none

/-- One iteration of the materialization loop (aggregator.rs:90-104): the
bucket emitted at start `current` — the accumulated bucket when the map has
an entry there, the all-zero bucket otherwise. -/
def bucketAt (msgs : List UnifiedMessage) (interval_ms current : ℤ) : IntervalBucket :=
  match bucketAccumulator msgs current interval_ms with
  | some acc => acc.into_bucket current interval_ms
  | none => emptyIntervalBucket current interval_ms

/-- `aggregate_by_interval`.  The source's `while current <= last_bucket`
loop stepping by `interval_ms` is rendered as a map over
`List.range bucket_count` with `current = first_bucket + i * interval_ms`,
where `bucket_count = (last_bucket - first_bucket) / interval_ms + 1` is the
very expression the source computes at line 66; since `last_bucket -
first_bucket` is a non-negative multiple of `interval_ms` for a positive
width, the two renderings produce the same starts. -/
def aggregate_by_interval (msgs : List UnifiedMessage) (interval_ms : ℤ) :
    List IntervalBucket :=
  if msgs = [] then []
  else
    let first_bucket := bucketStart (minTimestamp msgs) interval_ms
    let last_bucket := bucketStart (maxTimestamp msgs) interval_ms
    let bucket_count := ((last_bucket - first_bucket).tdiv interval_ms + 1).toNat
    (List.range bucket_count).map fun i : ℕ =>
      bucketAt msgs interval_ms (first_bucket + (i : ℤ) * interval_ms)

/-- `DailyTotals`. -/
structure DailyTotals where
  tokens : ℤ := 0
  cost : ℚ := 0
  messages : ℤ := 0
deriving DecidableEq, Repr

/-- `SourceContribution`. -/
structure SourceContribution where
  source : String
  model_id : String
  provider_id : String
  tokens : TokenBreakdown
  cost : ℚ
  messages : ℤ
deriving DecidableEq, Repr

/-- Folding one batch of token/cost/message fields into a source entry:
the saturating adds at aggregator.rs:302-308 and 335-341. -/
def SourceContribution.fold (sc : SourceContribution) (t : TokenBreakdown)
    (c : ℚ) (n : ℤ) : SourceContribution :=
  { sc with
    tokens := sc.tokens.satAdd t
    cost := sc.cost + c
    messages := satAdd32 sc.messages n }

/-- `self.sources.entry(key).or_insert_with(fresh)` followed by the field
updates, on the association-list model of the `HashMap`. -/
def updateSourceList (l : List (String × SourceContribution)) (key : String)
    (fresh : SourceContribution) (t : TokenBreakdown) (c : ℚ) (n : ℤ) :
    List (String × SourceContribution) :=
  match l with
  | [] => [(key, fresh.fold t c n)]
  | kv :: rest =>
    if kv.1 = key then (kv.1, kv.2.fold t c n) :: rest
    else kv :: updateSourceList rest key fresh t c n

/-- `DayAccumulator`. -/
structure DayAccumulator where
  totals : DailyTotals := {}
  token_breakdown : TokenBreakdown := TokenBreakdown.zero
  sources : List (String × SourceContribution) := []
deriving DecidableEq, Repr

def DayAccumulator.empty : DayAccumulator := {}

/-- `DayAccumulator::add_message`. -/
def DayAccumulator.add_message (a : DayAccumulator) (m : UnifiedMessage) :
    DayAccumulator where
  totals :=
    { tokens := satAdd64 a.totals.tokens m.totalTokens
      cost := a.totals.cost + m.cost
      messages := satAdd32 a.totals.messages 1 }
  token_breakdown := a.token_breakdown.satAdd m.tokens
  sources :=
    updateSourceList a.sources (m.source ++ ":" ++ m.model_id)
      { source := m.source
        model_id := m.model_id
        provider_id := m.provider_id
        tokens := TokenBreakdown.zero
        cost := 0
        messages := 0 }
      m.tokens m.cost 1

/-- `DayAccumulator::merge`. -/
def DayAccumulator.merge (a b : DayAccumulator) : DayAccumulator where
  totals :=
    { tokens := satAdd64 a.totals.tokens b.totals.tokens
      cost := a.totals.cost + b.totals.cost
      messages := satAdd32 a.totals.messages b.totals.messages }
  token_breakdown := a.token_breakdown.satAdd b.token_breakdown
  sources := b.sources.foldl (fun l kv =>
    updateSourceList l kv.1
      { source := kv.2.source
        model_id := kv.2.model_id
        provider_id := kv.2.provider_id
        tokens := TokenBreakdown.zero
        cost := 0
        messages := 0 }
      kv.2.tokens kv.2.cost kv.2.messages) a.sources

/-- `DailyContribution`. -/
structure DailyContribution where
  date : String
  totals : DailyTotals
  intensity : ℤ
  token_breakdown : TokenBreakdown
  sources : List SourceContribution
deriving DecidableEq, Repr

/-- `DayAccumulator::into_contribution` (`intensity` initialized to 0). -/
def DayAccumulator.into_contribution (a : DayAccumulator) (date : String) :
    DailyContribution where
  date := date
  totals := a.totals
  intensity := 0
  token_breakdown := a.token_breakdown
  sources := a.sources.map (·.2)

/-- The `fold 0.0 f64::max` over the daily costs (aggregator.rs:494-497). -/
def maxDailyCost (cs : List DailyContribution) : ℚ :=
  (cs.map (·.totals.cost)).foldl max 0

/-- `calculate_intensities`. -/
def calculate_intensities (cs : List DailyContribution) : List DailyContribution :=
  let max_cost := maxDailyCost cs
  if max_cost = 0 then cs
  else
    cs.map fun c =>
      let q := c.totals.cost / max_cost
      { c with intensity :=
          if q ≥ 3 / 4 then 4
          else if q ≥ 1 / 2 then 3
          else if q ≥ 1 / 4 then 2
          else if q > 0 then 1
          else 0 }

/-- Rust `str::to_lowercase`, modelled as ASCII lowercasing over the
character list (all ids involved are ASCII). -/
def strToLower (s : String) : String := String.mk (s.toList.map Char.toLower)

/-- Rust `str::starts_with`. -/
def strStartsWith (s pat : String) : Bool := decide (pat.toList <+: s.toList)

/-- Rust byte-wise lexicographic `<` on strings (UTF-8 byte order equals
code-point order, so comparing characters is equivalent). -/
def charListLt : List Char → List Char → Bool
  | [], [] => false
  | [], _ :: _ => true
  | _ :: _, [] => false
  | a :: as, b :: bs => if a < b then true else if b < a then false else charListLt as bs

def strLt (a b : String) : Bool := charListLt a.toList b.toList

/-- `YearSummary`. -/
structure YearSummary where
  year : String
  total_tokens : ℤ
  total_cost : ℚ
  range_start : String
  range_end : String
deriving DecidableEq, Repr

/-- `YearAccumulator` (fields `start`/`end` renamed `ystart`/`yend`:
`end` is a Lean keyword). -/
structure YearAccumulator where
  tokens : ℤ := 0
  cost : ℚ := 0
  ystart : String := ""
  yend : String := ""
deriving DecidableEq, Repr

/-- Take exactly `n` UTF-8 bytes off the front of a character list:
`none` when the string is shorter than `n` bytes or byte `n` is not a
character boundary — exactly the cases in which the Rust byte slice
`&c.date[0..4]` panics. -/
def takeBytes : List Char → ℕ → Option (List Char)
  | _, 0 => some []
  | [], _ + 1 => none
  | c :: rest, n + 1 =>
    if c.utf8Size ≤ n + 1 then (takeBytes rest (n + 1 - c.utf8Size)).map (c :: ·)
    else none

/-- The year key `&c.date[0..4]` of `calculate_years`; `none` models the
slice panic. -/
def sliceFirst4 (s : String) : Option String :=
  (takeBytes s.toList 4).map String.mk

/-- The per-contribution update of the years map entry
(aggregator.rs:194-203). -/
def YearAccumulator.bump (y : YearAccumulator) (c : DailyContribution) :
    YearAccumulator where
  tokens := y.tokens + c.totals.tokens
  cost := y.cost + c.totals.cost
  ystart := if y.ystart == "" || strLt c.date y.ystart then c.date else y.ystart
  yend := if y.yend == "" || strLt y.yend c.date then c.date else y.yend

/-- `years_map.entry(year).or_default()` then `bump`, on the
association-list model. -/
def updateYearList (l : List (String × YearAccumulator)) (year : String)
    (c : DailyContribution) : List (String × YearAccumulator) :=
  match l with
  | [] => [(year, YearAccumulator.bump {} c)]
  | kv :: rest =>
    if kv.1 = year then (kv.1, kv.2.bump c) :: rest
    else kv :: updateYearList rest year c

/-- The loop of `calculate_years`, propagating a slice panic as `none`. -/
def yearsFold : List DailyContribution → List (String × YearAccumulator) →
    Option (List (String × YearAccumulator))
  | [], acc => some acc
  | c :: rest, acc =>
    match sliceFirst4 c.date with
    | none => none
    | some y => yearsFold rest (updateYearList acc y c)

/-- `calculate_years`; `none` models the panic of the byte slice. -/
def calculate_years (cs : List DailyContribution) : Option (List YearSummary) :=
  (yearsFold cs []).map fun ymap =>
    (ymap.map fun kv =>
      { year := kv.1
        total_tokens := kv.2.tokens
        total_cost := kv.2.cost
        range_start := kv.2.ystart
        range_end := kv.2.yend }).mergeSort
      (fun a b => !(strLt b.year a.year))

/-- `ModelPricing` (pricing.rs). -/
structure ModelPricing where
  input_cost_per_token : ℚ
  output_cost_per_token : ℚ
  cache_read_input_token_cost : ℚ
  cache_creation_input_token_cost : ℚ
deriving DecidableEq, Repr

/-- `PricingData`: the `HashMap<String, ModelPricing>` modelled as an
association list with unique keys (the spec fixes keys unique; `HashMap`
iteration order in the fuzzy step is unspecified in Rust and is the list
order here). -/
structure PricingData where
  models : List (String × ModelPricing)
deriving DecidableEq, Repr

/-- `self.models.get(key)`. -/
def PricingData.find (d : PricingData) (key : String) : Option ModelPricing :=
  (d.models.find? (fun kv => kv.1 == key)).map (·.2)

/-- The fixed provider list tried at pricing.rs:42. -/
def providerPrefixes : List String := ["anthropic/", "openai/", "google/", "bedrock/"]

/-- Rust `str::contains` (substring containment). -/
def strContains (s pat : String) : Bool := decide (pat.toList <:+: s.toList)

/-- `PricingData::normalize_cursor_model_name`.  The source's nested
`if lower.contains(family) { if marker .. return .. }` blocks fall through
to the next family when no marker matches, so they linearize into this
`else if` chain. -/
def normalize_cursor_model_name (model_id : String) : Option String :=
  let lower := strToLower model_id
  if strContains lower "opus" && (strContains lower "4.5" || strContains lower "4-5") then
    some "opus-4-5"
  else if strContains lower "opus" && strContains lower "4" then
    some "opus-4"
  else if strContains lower "sonnet" && (strContains lower "4.5" || strContains lower "4-5") then
    some "sonnet-4-5"
  else if strContains lower "sonnet" && strContains lower "4" then
    some "sonnet-4"
  else if strContains lower "sonnet" && (strContains lower "3.7" || strContains lower "3-7") then
    some "sonnet-3-7"
  else if strContains lower "sonnet" && (strContains lower "3.5" || strContains lower "3-5") then
    some "sonnet-3-5"
  else if strContains lower "haiku" && (strContains lower "4.5" || strContains lower "4-5") then
    some "haiku-4-5"
  else if lower == "o3" then some "o3"
  else if strStartsWith lower "gpt-4o" || lower == "gpt-4o" then some "gpt-4o"
  else if strStartsWith lower "gpt-4.1" || strContains lower "gpt-4.1" then some "gpt-4.1"
  else if strContains lower "gemini-2.5-pro" then some "gemini-2.5-pro"
  else if strContains lower "gemini-2.5-flash" then some "gemini-2.5-flash"
  else none

/-- `PricingData::get_pricing`: exact, provider-prefixed, normalized
(exact then prefixed), then fuzzy substring fallback. -/
def PricingData.get_pricing (d : PricingData) (model_id : String) :
    Option ModelPricing :=
  match d.find model_id with
  | some pricing => some pricing
  | none =>
    match providerPrefixes.findSome? (fun pre => d.find (pre ++ model_id)) with
    | some pricing => some pricing
    | none =>
      let normalized := normalize_cursor_model_name model_id
      match normalized.bind (fun norm =>
        match d.find norm with
        | some pricing => some pricing
        | none => providerPrefixes.findSome? (fun pre => d.find (pre ++ norm))) with
      | some pricing => some pricing
      | none =>
        let lower_model := strToLower model_id
        let lower_normalized := normalized.map strToLower
        d.models.findSome? (fun kv =>
          let lower_key := strToLower kv.1
          if strContains lower_key lower_model || strContains lower_model lower_key then
            some kv.2
          else
            match lower_normalized with
            | some ln =>
              if strContains lower_key ln || strContains ln lower_key then some kv.2
              else none
            | none => none)

/-- `PricingData::calculate_cost`. -/
def PricingData.calculate_cost (d : PricingData) (model_id : String)
    (input output cache_read cache_write reasoning : ℤ) : ℚ :=
  match d.get_pricing model_id with
  | none => 0
  | some pricing =>
    (input : ℚ) * pricing.input_cost_per_token
      + ((output + reasoning : ℤ) : ℚ) * pricing.output_cost_per_token
      + (cache_read : ℚ) * pricing.cache_read_input_token_cost
      + (cache_write : ℚ) * pricing.cache_creation_input_token_cost

/-! ## Arithmetic facts about the saturating operations -/

theorem satAdd64_comm (a b : ℤ) : satAdd64 a b = satAdd64 b a := by
  unfold satAdd64; rw [Int.add_comm]

theorem satAdd32_comm (a b : ℤ) : satAdd32 a b = satAdd32 b a := by
  unfold satAdd32; rw [Int.add_comm]

theorem clamp64_eq_of {x : ℤ} (h0 : 0 ≤ x) (h1 : x ≤ i64Max) : clamp64 x = x := by
  simp only [clamp64, i64Min, i64Max] at *; omega

theorem clamp64_nonneg {x : ℤ} (h : 0 ≤ x) : 0 ≤ clamp64 x := by
  simp only [clamp64, i64Min, i64Max]; omega

theorem clamp64_le_max (x : ℤ) : clamp64 x ≤ i64Max := by
  simp only [clamp64, i64Min, i64Max]; omega

theorem satAdd64_clamp_clamp {s t : ℤ} (hs : 0 ≤ s) (ht : 0 ≤ t) :
    satAdd64 (clamp64 s) (clamp64 t) = clamp64 (s + t) := by
  simp only [satAdd64, clamp64, i64Min, i64Max]; omega

theorem satAdd64_clamp_left {s t : ℤ} (hs : 0 ≤ s) (ht0 : 0 ≤ t) (ht1 : t ≤ i64Max) :
    satAdd64 (clamp64 s) t = clamp64 (s + t) := by
  simp only [satAdd64, clamp64, i64Min, i64Max] at *; omega

theorem satAdd64_assoc {a b c : ℤ} (ha : 0 ≤ a) (hb : 0 ≤ b) (hc : 0 ≤ c) :
    satAdd64 (satAdd64 a b) c = satAdd64 a (satAdd64 b c) := by
  simp only [satAdd64, clamp64, i64Min, i64Max]; omega

theorem satAdd64_zero_left {x : ℤ} (h0 : 0 ≤ x) (h1 : x ≤ i64Max) :
    satAdd64 0 x = x := by
  simp only [satAdd64, clamp64, i64Min, i64Max] at *; omega

theorem satAdd64_zero_right {x : ℤ} (h0 : 0 ≤ x) (h1 : x ≤ i64Max) :
    satAdd64 x 0 = x := by
  simp only [satAdd64, clamp64, i64Min, i64Max] at *; omega

theorem clamp32_eq_of {x : ℤ} (h0 : 0 ≤ x) (h1 : x ≤ i32Max) : clamp32 x = x := by
  simp only [clamp32, i32Min, i32Max] at *; omega

theorem satAdd32_clamp_clamp {s t : ℤ} (hs : 0 ≤ s) (ht : 0 ≤ t) :
    satAdd32 (clamp32 s) (clamp32 t) = clamp32 (s + t) := by
  simp only [satAdd32, clamp32, i32Min, i32Max]; omega

theorem satAdd32_clamp_left {s t : ℤ} (hs : 0 ≤ s) (ht0 : 0 ≤ t) (ht1 : t ≤ i32Max) :
    satAdd32 (clamp32 s) t = clamp32 (s + t) := by
  simp only [satAdd32, clamp32, i32Min, i32Max] at *; omega

theorem satAdd32_assoc {a b c : ℤ} (ha : 0 ≤ a) (hb : 0 ≤ b) (hc : 0 ≤ c) :
    satAdd32 (satAdd32 a b) c = satAdd32 a (satAdd32 b c) := by
  simp only [satAdd32, clamp32, i32Min, i32Max]; omega

theorem satAdd32_zero_left {x : ℤ} (h0 : 0 ≤ x) (h1 : x ≤ i32Max) :
    satAdd32 0 x = x := by
  simp only [satAdd32, clamp32, i32Min, i32Max] at *; omega

theorem satAdd32_zero_right {x : ℤ} (h0 : 0 ≤ x) (h1 : x ≤ i32Max) :
    satAdd32 x 0 = x := by
  simp only [satAdd32, clamp32, i32Min, i32Max] at *; omega

/-! ## Exact views of the accumulated totals -/

/-- All five token counters of a breakdown are valid `i64` values and
non-negative (the spec's data-model invariant for message token counts). -/
def tbInRange (t : TokenBreakdown) : Prop :=
  (0 ≤ t.input ∧ t.input ≤ i64Max) ∧ (0 ≤ t.output ∧ t.output ≤ i64Max) ∧
  (0 ≤ t.cache_read ∧ t.cache_read ≤ i64Max) ∧
  (0 ≤ t.cache_write ∧ t.cache_write ≤ i64Max) ∧
  (0 ≤ t.reasoning ∧ t.reasoning ≤ i64Max)

instance (t : TokenBreakdown) : Decidable (tbInRange t) := by
  unfold tbInRange; infer_instance

/-- A message whose token counters are in range and non-negative. -/
def msgWf (m : UnifiedMessage) : Prop := tbInRange m.tokens

instance (m : UnifiedMessage) : Decidable (msgWf m) := by
  unfold msgWf; infer_instance

/-- All messages of a collection are well-formed. -/
def msgsWf (l : List UnifiedMessage) : Prop := ∀ m ∈ l, msgWf m

instance (l : List UnifiedMessage) : Decidable (msgsWf l) := by
  unfold msgsWf; infer_instance

/-- Non-negativity of all five counters. -/
def tbNonneg (t : TokenBreakdown) : Prop :=
  0 ≤ t.input ∧ 0 ≤ t.output ∧ 0 ≤ t.cache_read ∧ 0 ≤ t.cache_write ∧ 0 ≤ t.reasoning

/-- Exact pointwise sum of two breakdowns (no saturation). -/
def TokenBreakdown.add (a b : TokenBreakdown) : TokenBreakdown where
  input := a.input + b.input
  output := a.output + b.output
  cache_read := a.cache_read + b.cache_read
  cache_write := a.cache_write + b.cache_write
  reasoning := a.reasoning + b.reasoning

/-- Exact per-field sums of the token counters of a message collection. -/
def tbSum (l : List UnifiedMessage) : TokenBreakdown where
  input := (l.map (·.tokens.input)).sum
  output := (l.map (·.tokens.output)).sum
  cache_read := (l.map (·.tokens.cache_read)).sum
  cache_write := (l.map (·.tokens.cache_write)).sum
  reasoning := (l.map (·.tokens.reasoning)).sum

/-- Pointwise clamp of a breakdown into the `i64` range. -/
def tbClamp (t : TokenBreakdown) : TokenBreakdown where
  input := clamp64 t.input
  output := clamp64 t.output
  cache_read := clamp64 t.cache_read
  cache_write := clamp64 t.cache_write
  reasoning := clamp64 t.reasoning

/-- Exact sum of the message costs of a collection. -/
def costSum (l : List UnifiedMessage) : ℚ := (l.map (·.cost)).sum

/-- The (already per-message saturated) total-token figure `add_message`
folds into `DayAccumulator.totals.tokens` for one message. -/
def msgClampedTotal (m : UnifiedMessage) : ℤ :=
  clamp64 (m.tokens.input + m.tokens.output + m.tokens.cache_read +
    m.tokens.cache_write + m.tokens.reasoning)

/-- Exact sum of the per-message saturated totals. -/
def dayTokensSum (l : List UnifiedMessage) : ℤ := (l.map msgClampedTotal).sum

/-- The aggregated totals carried by an `IntervalAccumulator`
(token breakdown, message count, cost) — everything except the retained
raw `message_data`. -/
def IntervalAccumulator.totalsView (a : IntervalAccumulator) :
    TokenBreakdown × ℤ × ℚ := (a.token_breakdown, a.messages, a.cost)

/-- The aggregated totals carried by a `DayAccumulator`
(daily totals and token breakdown) — everything except the per-source map. -/
def DayAccumulator.totalsView (a : DayAccumulator) : DailyTotals × TokenBreakdown :=
  (a.totals, a.token_breakdown)

/-- Reachable-state invariant used for the identity/associativity laws. -/
def IntervalAccumulator.wf (a : IntervalAccumulator) : Prop :=
  tbInRange a.token_breakdown

/-- Reachable-state invariant used for the identity/associativity laws. -/
def DayAccumulator.wf (a : DayAccumulator) : Prop :=
  tbInRange a.token_breakdown ∧ (0 ≤ a.totals.tokens ∧ a.totals.tokens ≤ i64Max) ∧
    (0 ≤ a.totals.messages ∧ a.totals.messages ≤ i32Max)

/-! ## Fold normal forms: an accumulator fold is the clamped exact sum -/

theorem tbSum_nil : tbSum [] = TokenBreakdown.zero := by
  simp [tbSum, TokenBreakdown.zero]

theorem tbSum_snoc (l : List UnifiedMessage) (m : UnifiedMessage) :
    tbSum (l ++ [m]) = (tbSum l).add m.tokens := by
  simp [tbSum, TokenBreakdown.add]

theorem tbSum_append (l₁ l₂ : List UnifiedMessage) :
    tbSum (l₁ ++ l₂) = (tbSum l₁).add (tbSum l₂) := by
  simp [tbSum, TokenBreakdown.add]

theorem tbSum_nonneg {l : List UnifiedMessage} (h : msgsWf l) : tbNonneg (tbSum l) := by
  refine ⟨?_, ?_, ?_, ?_, ?_⟩ <;>
    exact List.sum_nonneg (by
      intro x hx
      obtain ⟨m, hm, rfl⟩ := List.mem_map.mp hx
      have := h m hm
      simp only [msgWf, tbInRange] at this
      omega)

theorem tb_satAdd_clamp_clamp {s t : TokenBreakdown} (hs : tbNonneg s) (ht : tbNonneg t) :
    (tbClamp s).satAdd (tbClamp t) = tbClamp (s.add t) := by
  obtain ⟨h1, h2, h3, h4, h5⟩ := hs
  obtain ⟨g1, g2, g3, g4, g5⟩ := ht
  simp only [TokenBreakdown.satAdd, tbClamp, TokenBreakdown.add, TokenBreakdown.mk.injEq]
  exact ⟨satAdd64_clamp_clamp h1 g1, satAdd64_clamp_clamp h2 g2, satAdd64_clamp_clamp h3 g3,
    satAdd64_clamp_clamp h4 g4, satAdd64_clamp_clamp h5 g5⟩

theorem tb_satAdd_clamp_left {s t : TokenBreakdown} (hs : tbNonneg s) (ht : tbInRange t) :
    (tbClamp s).satAdd t = tbClamp (s.add t) := by
  obtain ⟨h1, h2, h3, h4, h5⟩ := hs
  obtain ⟨⟨g1, g1'⟩, ⟨g2, g2'⟩, ⟨g3, g3'⟩, ⟨g4, g4'⟩, ⟨g5, g5'⟩⟩ := ht
  simp only [TokenBreakdown.satAdd, tbClamp, TokenBreakdown.add, TokenBreakdown.mk.injEq]
  exact ⟨satAdd64_clamp_left h1 g1 g1', satAdd64_clamp_left h2 g2 g2',
    satAdd64_clamp_left h3 g3 g3', satAdd64_clamp_left h4 g4 g4',
    satAdd64_clamp_left h5 g5 g5'⟩

theorem msgsWf_append_left {l₁ l₂ : List UnifiedMessage} (h : msgsWf (l₁ ++ l₂)) :
    msgsWf l₁ :=
  fun m hm => h m (List.mem_append.mpr (Or.inl hm))

theorem msgsWf_append_right {l₁ l₂ : List UnifiedMessage} (h : msgsWf (l₁ ++ l₂)) :
    msgsWf l₂ :=
  fun m hm => h m (List.mem_append.mpr (Or.inr hm))

theorem interval_foldl_messages (l : List UnifiedMessage) (a : IntervalAccumulator) :
    (l.foldl IntervalAccumulator.add_message a).messages = a.messages + l.length := by
  induction l generalizing a with
  | nil => simp
  | cons m rest ih =>
    rw [List.foldl_cons, ih]
    simp only [IntervalAccumulator.add_message, List.length_cons]
    push_cast
    ring

theorem interval_foldl_cost (l : List UnifiedMessage) (a : IntervalAccumulator) :
    (l.foldl IntervalAccumulator.add_message a).cost = a.cost + costSum l := by
  induction l generalizing a with
  | nil => simp [costSum]
  | cons m rest ih =>
    rw [List.foldl_cons, ih]
    simp only [IntervalAccumulator.add_message, costSum, List.map_cons, List.sum_cons]
    ring

theorem interval_foldl_message_data (l : List UnifiedMessage) (a : IntervalAccumulator) :
    (l.foldl IntervalAccumulator.add_message a).message_data =
      a.message_data ++ l.map (fun m => (m.timestamp, m.totalTokens)) := by
  induction l generalizing a with
  | nil => simp
  | cons m rest ih =>
    rw [List.foldl_cons, ih]
    simp [IntervalAccumulator.add_message]

theorem interval_foldl_tb : ∀ l : List UnifiedMessage, msgsWf l →
    (l.foldl IntervalAccumulator.add_message IntervalAccumulator.empty).token_breakdown =
      tbClamp (tbSum l) := by
  intro l
  induction l using List.reverseRecOn with
  | nil => intro _; decide
  | append_singleton rest m ih =>
    intro h
    have hrest := msgsWf_append_left h
    have hm : msgWf m := h m (List.mem_append.mpr (Or.inr (by simp)))
    rw [List.foldl_append, List.foldl_cons, List.foldl_nil]
    show (rest.foldl IntervalAccumulator.add_message
        IntervalAccumulator.empty).token_breakdown.satAdd m.tokens = _
    rw [ih hrest, tbSum_snoc, tb_satAdd_clamp_left (tbSum_nonneg hrest) hm]

theorem interval_mergefold_messages (accs : List IntervalAccumulator)
    (a : IntervalAccumulator) :
    (accs.foldl IntervalAccumulator.merge a).messages =
      a.messages + (accs.map (·.messages)).sum := by
  induction accs generalizing a with
  | nil => simp
  | cons x rest ih =>
    rw [List.foldl_cons, ih]
    simp only [IntervalAccumulator.merge, List.map_cons, List.sum_cons]
    ring

theorem interval_mergefold_cost (accs : List IntervalAccumulator)
    (a : IntervalAccumulator) :
    (accs.foldl IntervalAccumulator.merge a).cost =
      a.cost + (accs.map (·.cost)).sum := by
  induction accs generalizing a with
  | nil => simp
  | cons x rest ih =>
    rw [List.foldl_cons, ih]
    simp only [IntervalAccumulator.merge, List.map_cons, List.sum_cons]
    ring

theorem interval_mergefold_tb : ∀ P : List (List UnifiedMessage), msgsWf P.flatten →
    ((P.map (fun part =>
        part.foldl IntervalAccumulator.add_message IntervalAccumulator.empty)).foldl
      IntervalAccumulator.merge IntervalAccumulator.empty).token_breakdown =
      tbClamp (tbSum P.flatten) := by
  intro P
  induction P using List.reverseRecOn with
  | nil => intro _; decide
  | append_singleton rest part ih =>
    intro h
    have hflat : (rest ++ [part]).flatten = rest.flatten ++ part := by
      simp [List.flatten_append]
    rw [hflat] at h
    have hrest := msgsWf_append_left h
    have hpart := msgsWf_append_right h
    rw [List.map_append, List.foldl_append, List.map_cons, List.map_nil,
      List.foldl_cons, List.foldl_nil]
    show ((rest.map _).foldl IntervalAccumulator.merge
        IntervalAccumulator.empty).token_breakdown.satAdd
        (part.foldl IntervalAccumulator.add_message
          IntervalAccumulator.empty).token_breakdown = _
    rw [ih hrest, interval_foldl_tb part hpart, hflat, tbSum_append,
      tb_satAdd_clamp_clamp (tbSum_nonneg hrest) (tbSum_nonneg hpart)]

theorem totalTokens_eq_clamp {m : UnifiedMessage} (h : msgWf m) :
    m.totalTokens = msgClampedTotal m := by
  simp only [msgWf, tbInRange] at h
  simp only [UnifiedMessage.totalTokens, msgClampedTotal, satAdd64, clamp64,
    i64Min, i64Max] at *
  omega

theorem msgClampedTotal_nonneg {m : UnifiedMessage} (h : msgWf m) :
    0 ≤ msgClampedTotal m := by
  simp only [msgWf, tbInRange] at h
  simp only [msgClampedTotal, clamp64, i64Min, i64Max]
  omega

theorem msgClampedTotal_le {m : UnifiedMessage} : msgClampedTotal m ≤ i64Max :=
  clamp64_le_max _

theorem dayTokensSum_nonneg {l : List UnifiedMessage} (h : msgsWf l) :
    0 ≤ dayTokensSum l := by
  refine List.sum_nonneg ?_
  intro x hx
  obtain ⟨m, hm, rfl⟩ := List.mem_map.mp hx
  exact msgClampedTotal_nonneg (h m hm)

theorem dayTokensSum_snoc (l : List UnifiedMessage) (m : UnifiedMessage) :
    dayTokensSum (l ++ [m]) = dayTokensSum l + msgClampedTotal m := by
  simp [dayTokensSum]

theorem dayTokensSum_append (l₁ l₂ : List UnifiedMessage) :
    dayTokensSum (l₁ ++ l₂) = dayTokensSum l₁ + dayTokensSum l₂ := by
  simp [dayTokensSum]

theorem day_foldl_cost (l : List UnifiedMessage) (a : DayAccumulator) :
    (l.foldl DayAccumulator.add_message a).totals.cost = a.totals.cost + costSum l := by
  induction l generalizing a with
  | nil => simp [costSum]
  | cons m rest ih =>
    rw [List.foldl_cons, ih]
    simp only [DayAccumulator.add_message, costSum, List.map_cons, List.sum_cons]
    ring

theorem day_foldl_messages : ∀ l : List UnifiedMessage,
    (l.foldl DayAccumulator.add_message DayAccumulator.empty).totals.messages =
      clamp32 l.length := by
  intro l
  induction l using List.reverseRecOn with
  | nil => decide
  | append_singleton rest m ih =>
    rw [List.foldl_append, List.foldl_cons, List.foldl_nil]
    show satAdd32 (rest.foldl DayAccumulator.add_message
        DayAccumulator.empty).totals.messages 1 = _
    rw [ih, satAdd32_clamp_left (by positivity) (by norm_num) (by norm_num [i32Max])]
    simp only [List.length_append, List.length_cons, List.length_nil]
    push_cast
    ring_nf

theorem day_foldl_tokens : ∀ l : List UnifiedMessage, msgsWf l →
    (l.foldl DayAccumulator.add_message DayAccumulator.empty).totals.tokens =
      clamp64 (dayTokensSum l) := by
  intro l
  induction l using List.reverseRecOn with
  | nil => intro _; decide
  | append_singleton rest m ih =>
    intro h
    have hrest := msgsWf_append_left h
    have hm : msgWf m := h m (List.mem_append.mpr (Or.inr (by simp)))
    rw [List.foldl_append, List.foldl_cons, List.foldl_nil]
    show satAdd64 (rest.foldl DayAccumulator.add_message
        DayAccumulator.empty).totals.tokens m.totalTokens = _
    rw [ih hrest, totalTokens_eq_clamp hm, dayTokensSum_snoc,
      satAdd64_clamp_left (dayTokensSum_nonneg hrest) (msgClampedTotal_nonneg hm)
        msgClampedTotal_le]

theorem day_foldl_tb : ∀ l : List UnifiedMessage, msgsWf l →
    (l.foldl DayAccumulator.add_message DayAccumulator.empty).token_breakdown =
      tbClamp (tbSum l) := by
  intro l
  induction l using List.reverseRecOn with
  | nil => intro _; decide
  | append_singleton rest m ih =>
    intro h
    have hrest := msgsWf_append_left h
    have hm : msgWf m := h m (List.mem_append.mpr (Or.inr (by simp)))
    rw [List.foldl_append, List.foldl_cons, List.foldl_nil]
    show (rest.foldl DayAccumulator.add_message
        DayAccumulator.empty).token_breakdown.satAdd m.tokens = _
    rw [ih hrest, tbSum_snoc, tb_satAdd_clamp_left (tbSum_nonneg hrest) hm]

theorem day_mergefold_cost (accs : List DayAccumulator) (a : DayAccumulator) :
    (accs.foldl DayAccumulator.merge a).totals.cost =
      a.totals.cost + (accs.map (·.totals.cost)).sum := by
  induction accs generalizing a with
  | nil => simp
  | cons x rest ih =>
    rw [List.foldl_cons, ih]
    simp only [DayAccumulator.merge, List.map_cons, List.sum_cons]
    ring

theorem day_mergefold_messages : ∀ P : List (List UnifiedMessage),
    ((P.map (fun part =>
        part.foldl DayAccumulator.add_message DayAccumulator.empty)).foldl
      DayAccumulator.merge DayAccumulator.empty).totals.messages =
      clamp32 P.flatten.length := by
  intro P
  induction P using List.reverseRecOn with
  | nil => decide
  | append_singleton rest part ih =>
    have hflat : (rest ++ [part]).flatten = rest.flatten ++ part := by
      simp [List.flatten_append]
    rw [List.map_append, List.foldl_append, List.map_cons, List.map_nil,
      List.foldl_cons, List.foldl_nil]
    show satAdd32 ((rest.map _).foldl DayAccumulator.merge
        DayAccumulator.empty).totals.messages
        (part.foldl DayAccumulator.add_message DayAccumulator.empty).totals.messages = _
    rw [ih, day_foldl_messages part, satAdd32_clamp_clamp (by positivity) (by positivity),
      hflat]
    simp only [List.length_append]
    push_cast
    ring_nf

theorem day_mergefold_tokens : ∀ P : List (List UnifiedMessage), msgsWf P.flatten →
    ((P.map (fun part =>
        part.foldl DayAccumulator.add_message DayAccumulator.empty)).foldl
      DayAccumulator.merge DayAccumulator.empty).totals.tokens =
      clamp64 (dayTokensSum P.flatten) := by
  intro P
  induction P using List.reverseRecOn with
  | nil => intro _; decide
  | append_singleton rest part ih =>
    intro h
    have hflat : (rest ++ [part]).flatten = rest.flatten ++ part := by
      simp [List.flatten_append]
    rw [hflat] at h
    have hrest := msgsWf_append_left h
    have hpart := msgsWf_append_right h
    rw [List.map_append, List.foldl_append, List.map_cons, List.map_nil,
      List.foldl_cons, List.foldl_nil]
    show satAdd64 ((rest.map _).foldl DayAccumulator.merge
        DayAccumulator.empty).totals.tokens
        (part.foldl DayAccumulator.add_message DayAccumulator.empty).totals.tokens = _
    rw [ih hrest, day_foldl_tokens part hpart,
      satAdd64_clamp_clamp (dayTokensSum_nonneg hrest) (dayTokensSum_nonneg hpart),
      hflat, dayTokensSum_append]

theorem day_mergefold_tb : ∀ P : List (List UnifiedMessage), msgsWf P.flatten →
    ((P.map (fun part =>
        part.foldl DayAccumulator.add_message DayAccumulator.empty)).foldl
      DayAccumulator.merge DayAccumulator.empty).token_breakdown =
      tbClamp (tbSum P.flatten) := by
  intro P
  induction P using List.reverseRecOn with
  | nil => intro _; decide
  | append_singleton rest part ih =>
    intro h
    have hflat : (rest ++ [part]).flatten = rest.flatten ++ part := by
      simp [List.flatten_append]
    rw [hflat] at h
    have hrest := msgsWf_append_left h
    have hpart := msgsWf_append_right h
    rw [List.map_append, List.foldl_append, List.map_cons, List.map_nil,
      List.foldl_cons, List.foldl_nil]
    show ((rest.map _).foldl DayAccumulator.merge
        DayAccumulator.empty).token_breakdown.satAdd
        (part.foldl DayAccumulator.add_message DayAccumulator.empty).token_breakdown = _
    rw [ih hrest, day_foldl_tb part hpart,
      tb_satAdd_clamp_clamp (tbSum_nonneg hrest) (tbSum_nonneg hpart), hflat,
      tbSum_append]

/-! ## Permutation invariance of the exact sums -/

theorem tbSum_perm {l₁ l₂ : List UnifiedMessage} (h : l₁.Perm l₂) :
    tbSum l₁ = tbSum l₂ := by
  simp only [tbSum, TokenBreakdown.mk.injEq]
  exact ⟨(h.map _).sum_eq, (h.map _).sum_eq, (h.map _).sum_eq, (h.map _).sum_eq,
    (h.map _).sum_eq⟩

theorem costSum_perm {l₁ l₂ : List UnifiedMessage} (h : l₁.Perm l₂) :
    costSum l₁ = costSum l₂ := (h.map _).sum_eq

theorem dayTokensSum_perm {l₁ l₂ : List UnifiedMessage} (h : l₁.Perm l₂) :
    dayTokensSum l₁ = dayTokensSum l₂ := (h.map _).sum_eq

theorem msgsWf_of_perm {l₁ l₂ : List UnifiedMessage} (h : l₁.Perm l₂)
    (hw : msgsWf l₂) : msgsWf l₁ := fun m hm => hw m (h.mem_iff.mp hm)

/-! ## Merge laws on the totals -/

theorem tb_satAdd_comm (a b : TokenBreakdown) : a.satAdd b = b.satAdd a := by
  simp only [TokenBreakdown.satAdd, TokenBreakdown.mk.injEq]
  exact ⟨satAdd64_comm _ _, satAdd64_comm _ _, satAdd64_comm _ _, satAdd64_comm _ _,
    satAdd64_comm _ _⟩

theorem tbNonneg_of_inRange {t : TokenBreakdown} (h : tbInRange t) : tbNonneg t := by
  simp only [tbInRange] at h
  exact ⟨h.1.1, h.2.1.1, h.2.2.1.1, h.2.2.2.1.1, h.2.2.2.2.1⟩

theorem tb_satAdd_assoc {a b c : TokenBreakdown} (ha : tbNonneg a) (hb : tbNonneg b)
    (hc : tbNonneg c) : (a.satAdd b).satAdd c = a.satAdd (b.satAdd c) := by
  obtain ⟨a1, a2, a3, a4, a5⟩ := ha
  obtain ⟨b1, b2, b3, b4, b5⟩ := hb
  obtain ⟨c1, c2, c3, c4, c5⟩ := hc
  simp only [TokenBreakdown.satAdd, TokenBreakdown.mk.injEq]
  exact ⟨satAdd64_assoc a1 b1 c1, satAdd64_assoc a2 b2 c2, satAdd64_assoc a3 b3 c3,
    satAdd64_assoc a4 b4 c4, satAdd64_assoc a5 b5 c5⟩

theorem tb_satAdd_zero_left {t : TokenBreakdown} (h : tbInRange t) :
    TokenBreakdown.zero.satAdd t = t := by
  simp only [tbInRange] at h
  simp only [TokenBreakdown.satAdd, TokenBreakdown.zero]
  cases t
  simp only [TokenBreakdown.mk.injEq]
  simp only at h
  exact ⟨satAdd64_zero_left h.1.1 h.1.2, satAdd64_zero_left h.2.1.1 h.2.1.2,
    satAdd64_zero_left h.2.2.1.1 h.2.2.1.2, satAdd64_zero_left h.2.2.2.1.1 h.2.2.2.1.2,
    satAdd64_zero_left h.2.2.2.2.1 h.2.2.2.2.2⟩

theorem tb_satAdd_zero_right {t : TokenBreakdown} (h : tbInRange t) :
    t.satAdd TokenBreakdown.zero = t := by
  rw [tb_satAdd_comm]
  exact tb_satAdd_zero_left h

/-! ## Partition independence of the totals -/

theorem sum_length_cast (P : List (List UnifiedMessage)) :
    (P.map (fun part => (part.length : ℤ))).sum = (P.flatten.length : ℤ) := by
  induction P with
  | nil => simp
  | cons part rest ih =>
    simp only [List.map_cons, List.sum_cons, List.flatten_cons, List.length_append, ih]
    push_cast
    ring

theorem costSum_append (l₁ l₂ : List UnifiedMessage) :
    costSum (l₁ ++ l₂) = costSum l₁ + costSum l₂ := by
  simp [costSum]

theorem costSum_flatten (P : List (List UnifiedMessage)) :
    (P.map costSum).sum = costSum P.flatten := by
  induction P with
  | nil => simp [costSum]
  | cons part rest ih => simp [List.flatten_cons, costSum_append, ih]

theorem interval_partition_totalsView (P : List (List UnifiedMessage))
    (msgs : List UnifiedMessage) (hperm : P.flatten.Perm msgs) (hw : msgsWf msgs) :
    ((P.map (fun part =>
        part.foldl IntervalAccumulator.add_message IntervalAccumulator.empty)).foldl
      IntervalAccumulator.merge IntervalAccumulator.empty).totalsView =
      (msgs.foldl IntervalAccumulator.add_message
        IntervalAccumulator.empty).totalsView := by
  have hwflat : msgsWf P.flatten := msgsWf_of_perm hperm hw
  simp only [IntervalAccumulator.totalsView, Prod.mk.injEq]
  refine ⟨?_, ?_, ?_⟩
  · rw [interval_mergefold_tb P hwflat, interval_foldl_tb msgs hw, tbSum_perm hperm]
  · rw [interval_mergefold_messages, interval_foldl_messages, List.map_map]
    have hmap : P.map ((fun a : IntervalAccumulator => a.messages) ∘ fun part =>
        part.foldl IntervalAccumulator.add_message IntervalAccumulator.empty) =
        P.map (fun part => (part.length : ℤ)) := by
      refine List.map_congr_left ?_
      intro part _
      simp only [Function.comp]
      rw [interval_foldl_messages]
      show IntervalAccumulator.empty.messages + _ = _
      simp [IntervalAccumulator.empty]
    rw [hmap, sum_length_cast, hperm.length_eq]
  · rw [interval_mergefold_cost, interval_foldl_cost, List.map_map]
    have hmap : P.map ((fun a : IntervalAccumulator => a.cost) ∘ fun part =>
        part.foldl IntervalAccumulator.add_message IntervalAccumulator.empty) =
        P.map costSum := by
      refine List.map_congr_left ?_
      intro part _
      simp only [Function.comp]
      rw [interval_foldl_cost]
      show IntervalAccumulator.empty.cost + _ = _
      simp [IntervalAccumulator.empty]
    rw [hmap, costSum_flatten, costSum_perm hperm]

theorem day_partition_totalsView (P : List (List UnifiedMessage))
    (msgs : List UnifiedMessage) (hperm : P.flatten.Perm msgs) (hw : msgsWf msgs) :
    ((P.map (fun part =>
        part.foldl DayAccumulator.add_message DayAccumulator.empty)).foldl
      DayAccumulator.merge DayAccumulator.empty).totalsView =
      (msgs.foldl DayAccumulator.add_message DayAccumulator.empty).totalsView := by
  have hwflat : msgsWf P.flatten := msgsWf_of_perm hperm hw
  simp only [DayAccumulator.totalsView, Prod.mk.injEq]
  constructor
  · have htok := day_mergefold_tokens P hwflat
    have hmsg := day_mergefold_messages P
    have hcost : ((P.map (fun part =>
        part.foldl DayAccumulator.add_message DayAccumulator.empty)).foldl
        DayAccumulator.merge DayAccumulator.empty).totals.cost = costSum P.flatten := by
      rw [day_mergefold_cost, List.map_map]
      have hmap : P.map ((fun a : DayAccumulator => a.totals.cost) ∘ fun part =>
          part.foldl DayAccumulator.add_message DayAccumulator.empty) =
          P.map costSum := by
        refine List.map_congr_left ?_
        intro part _
        simp only [Function.comp]
        rw [day_foldl_cost]
        simp only [show DayAccumulator.empty.totals.cost = (0 : ℚ) from rfl, zero_add]
      rw [hmap, costSum_flatten]
      simp only [show DayAccumulator.empty.totals.cost = (0 : ℚ) from rfl, zero_add]
    have htok' := day_foldl_tokens msgs hw
    have hmsg' := day_foldl_messages msgs
    have hcost' : (msgs.foldl DayAccumulator.add_message
        DayAccumulator.empty).totals.cost = costSum msgs := by
      rw [day_foldl_cost]
      simp only [show DayAccumulator.empty.totals.cost = (0 : ℚ) from rfl, zero_add]
    cases hL : ((P.map (fun part =>
        part.foldl DayAccumulator.add_message DayAccumulator.empty)).foldl
        DayAccumulator.merge DayAccumulator.empty).totals with
    | mk tL cL mL =>
      cases hR : (msgs.foldl DayAccumulator.add_message
          DayAccumulator.empty).totals with
      | mk tR cR mR =>
        rw [hL] at htok hcost hmsg
        rw [hR] at htok' hcost' hmsg'
        simp only at htok hcost hmsg htok' hcost' hmsg'
        simp only [DailyTotals.mk.injEq]
        refine ⟨?_, ?_, ?_⟩
        · rw [htok, htok', dayTokensSum_perm hperm]
        · rw [hcost, hcost', costSum_perm hperm]
        · rw [hmsg, hmsg', hperm.length_eq]
  · rw [day_mergefold_tb P hwflat, day_foldl_tb msgs hw, tbSum_perm hperm]

theorem map_filter_flatten (P : List (List UnifiedMessage)) (p : UnifiedMessage → Bool) :
    (P.map (fun part => part.filter p)).flatten = P.flatten.filter p := by
  induction P with
  | nil => simp
  | cons part rest ih =>
    simp only [List.map_cons, List.flatten_cons, List.filter_append, ih]

/-! ## C1 -/

/-- Demonstration messages used by concrete witnesses. -/
def cxMsgA : UnifiedMessage :=
  { source := "test", model_id := "m", provider_id := "p", session_id := "s",
    timestamp := 0, date := "2024-01-01", tokens := ⟨1, 2, 3, 4, 5⟩, cost := 1 / 100 }

def cxMsgB : UnifiedMessage :=
  { source := "test", model_id := "m", provider_id := "p", session_id := "s",
    timestamp := 1000, date := "2024-01-01", tokens := ⟨10, 0, 0, 0, 0⟩, cost := 2 / 100 }

def cxMsgC : UnifiedMessage :=
  { source := "other", model_id := "m2", provider_id := "p", session_id := "s",
    timestamp := 2500, date := "2024-01-02", tokens := ⟨7, 1, 0, 0, 0⟩, cost := 3 / 100 }

/-- C1 counterexample: `IntervalAccumulator.merge` is not commutative on the
full accumulator state — two accumulators, each built by `add_message` from
one message, merge to different accumulators in the two orders, because the
retained `message_data` vectors concatenate in merge order.  Hence the two
accumulator types do not form a commutative monoid under `merge` as claimed. -/
theorem c1_counterexample :
    ¬ ((IntervalAccumulator.empty.add_message cxMsgA).merge
        (IntervalAccumulator.empty.add_message cxMsgB) =
      (IntervalAccumulator.empty.add_message cxMsgB).merge
        (IntervalAccumulator.empty.add_message cxMsgA)) := by
  intro h
  have hmd := congrArg IntervalAccumulator.message_data h
  simp only [IntervalAccumulator.merge, IntervalAccumulator.add_message,
    IntervalAccumulator.empty, List.nil_append, List.cons_append,
    List.cons.injEq, Prod.mk.injEq] at hmd
  exact absurd hmd.1.1 (by decide)

/-- C1 (amended): on the carried totals (token breakdown, message count,
cost — daily totals for `DayAccumulator`), `merge` is commutative, has the
empty accumulator as identity, and is associative (for accumulators whose
counters are in machine range and non-negative); and for any partition of
any well-formed message collection into any number of groups in any order,
folding each group with `add_message` and merging the partial accumulators
yields the same totals as folding the collection directly — for both
`IntervalAccumulator` and `DayAccumulator`, and likewise per date key for
the date-keyed aggregation (cost modelled in exact arithmetic). -/
theorem c1_merge_totals_monoid_and_partition_independence :
    (∀ a b : IntervalAccumulator,
      (a.merge b).totalsView = (b.merge a).totalsView) ∧
    (∀ a b : DayAccumulator,
      (a.merge b).totalsView = (b.merge a).totalsView) ∧
    (∀ a : IntervalAccumulator, a.wf →
      (IntervalAccumulator.empty.merge a).totalsView = a.totalsView ∧
      (a.merge IntervalAccumulator.empty).totalsView = a.totalsView) ∧
    (∀ a : DayAccumulator, a.wf →
      (DayAccumulator.empty.merge a).totalsView = a.totalsView ∧
      (a.merge DayAccumulator.empty).totalsView = a.totalsView) ∧
    (∀ a b c : IntervalAccumulator, a.wf → b.wf → c.wf →
      ((a.merge b).merge c).totalsView = (a.merge (b.merge c)).totalsView) ∧
    (∀ a b c : DayAccumulator, a.wf → b.wf → c.wf →
      ((a.merge b).merge c).totalsView = (a.merge (b.merge c)).totalsView) ∧
    (∀ (P : List (List UnifiedMessage)) (msgs : List UnifiedMessage),
      P.flatten.Perm msgs → msgsWf msgs →
      ((P.map (fun part =>
          part.foldl IntervalAccumulator.add_message IntervalAccumulator.empty)).foldl
        IntervalAccumulator.merge IntervalAccumulator.empty).totalsView =
        (msgs.foldl IntervalAccumulator.add_message
          IntervalAccumulator.empty).totalsView) ∧
    (∀ (P : List (List UnifiedMessage)) (msgs : List UnifiedMessage),
      P.flatten.Perm msgs → msgsWf msgs →
      ((P.map (fun part =>
          part.foldl DayAccumulator.add_message DayAccumulator.empty)).foldl
        DayAccumulator.merge DayAccumulator.empty).totalsView =
        (msgs.foldl DayAccumulator.add_message DayAccumulator.empty).totalsView) ∧
    (∀ (dte : String) (P : List (List UnifiedMessage)) (msgs : List UnifiedMessage),
      P.flatten.Perm msgs → msgsWf msgs →
      ((P.map (fun part =>
          (part.filter (fun m => m.date == dte)).foldl DayAccumulator.add_message
            DayAccumulator.empty)).foldl
        DayAccumulator.merge DayAccumulator.empty).totalsView =
        ((msgs.filter (fun m => m.date == dte)).foldl DayAccumulator.add_message
          DayAccumulator.empty).totalsView) := by
  refine ⟨?_, ?_, ?_, ?_, ?_, ?_, ?_, ?_, ?_⟩
  · intro a b
    simp only [IntervalAccumulator.merge, IntervalAccumulator.totalsView, Prod.mk.injEq]
    exact ⟨tb_satAdd_comm _ _, add_comm _ _, add_comm _ _⟩
  · intro a b
    simp only [DayAccumulator.merge, DayAccumulator.totalsView, Prod.mk.injEq,
      DailyTotals.mk.injEq]
    exact ⟨⟨satAdd64_comm _ _, add_comm _ _, satAdd32_comm _ _⟩, tb_satAdd_comm _ _⟩
  · intro a ha
    constructor
    · simp only [IntervalAccumulator.merge, IntervalAccumulator.totalsView, Prod.mk.injEq]
      refine ⟨tb_satAdd_zero_left ha, ?_, ?_⟩
      · show (0 : ℤ) + a.messages = a.messages
        exact zero_add _
      · show (0 : ℚ) + a.cost = a.cost
        exact zero_add _
    · simp only [IntervalAccumulator.merge, IntervalAccumulator.totalsView, Prod.mk.injEq]
      refine ⟨tb_satAdd_zero_right ha, ?_, ?_⟩
      · show a.messages + (0 : ℤ) = a.messages
        exact add_zero _
      · show a.cost + (0 : ℚ) = a.cost
        exact add_zero _
  · intro a ha
    obtain ⟨totals, tb, srcs⟩ := a
    obtain ⟨atok, acost, amsg⟩ := totals
    obtain ⟨htb, ⟨ht0, ht1⟩, hm0, hm1⟩ := ha
    constructor
    · simp only [DayAccumulator.merge, DayAccumulator.totalsView, Prod.mk.injEq,
        DailyTotals.mk.injEq]
      exact ⟨⟨satAdd64_zero_left ht0 ht1, zero_add _, satAdd32_zero_left hm0 hm1⟩,
        tb_satAdd_zero_left htb⟩
    · simp only [DayAccumulator.merge, DayAccumulator.totalsView, Prod.mk.injEq,
        DailyTotals.mk.injEq]
      exact ⟨⟨satAdd64_zero_right ht0 ht1, add_zero _, satAdd32_zero_right hm0 hm1⟩,
        tb_satAdd_zero_right htb⟩
  · intro a b c ha hb hc
    simp only [IntervalAccumulator.merge, IntervalAccumulator.totalsView, Prod.mk.injEq]
    exact ⟨tb_satAdd_assoc (tbNonneg_of_inRange ha) (tbNonneg_of_inRange hb)
        (tbNonneg_of_inRange hc), add_assoc _ _ _, add_assoc _ _ _⟩
  · intro a b c ha hb hc
    obtain ⟨hatb, ⟨hat0, _⟩, ham0, _⟩ := ha
    obtain ⟨hbtb, ⟨hbt0, _⟩, hbm0, _⟩ := hb
    obtain ⟨hctb, ⟨hct0, _⟩, hcm0, _⟩ := hc
    simp only [DayAccumulator.merge, DayAccumulator.totalsView, Prod.mk.injEq,
      DailyTotals.mk.injEq]
    exact ⟨⟨satAdd64_assoc hat0 hbt0 hct0, add_assoc _ _ _,
      satAdd32_assoc ham0 hbm0 hcm0⟩,
      tb_satAdd_assoc (tbNonneg_of_inRange hatb) (tbNonneg_of_inRange hbtb)
        (tbNonneg_of_inRange hctb)⟩
  · exact interval_partition_totalsView
  · exact day_partition_totalsView
  · intro dte P msgs hperm hw
    have h1 : (P.map (fun part => part.filter (fun m => m.date == dte))).flatten.Perm
        (msgs.filter (fun m => m.date == dte)) := by
      rw [map_filter_flatten]
      exact hperm.filter _
    have h2 : msgsWf (msgs.filter (fun m => m.date == dte)) :=
      fun m hm => hw m (List.mem_of_mem_filter hm)
    have := day_partition_totalsView (P.map (fun part =>
      part.filter (fun m => m.date == dte))) (msgs.filter (fun m => m.date == dte)) h1 h2
    rw [List.map_map] at this
    exact this

/-- C1 witness: the partition-independence clause applied to a concrete
partition of three concrete messages against a reordering of the flat list. -/
theorem c1_witness :
    (([[cxMsgA], [cxMsgB, cxMsgC]].map (fun part =>
        part.foldl IntervalAccumulator.add_message IntervalAccumulator.empty)).foldl
      IntervalAccumulator.merge IntervalAccumulator.empty).totalsView =
      ([cxMsgB, cxMsgC, cxMsgA].foldl IntervalAccumulator.add_message
        IntervalAccumulator.empty).totalsView :=
  c1_merge_totals_monoid_and_partition_independence.2.2.2.2.2.2.1
    [[cxMsgA], [cxMsgB, cxMsgC]] [cxMsgB, cxMsgC, cxMsgA]
    (by
      show ([cxMsgA] ++ ([cxMsgB, cxMsgC] ++ [])).Perm [cxMsgB, cxMsgC, cxMsgA]
      simp only [List.append_nil]
      exact List.perm_append_comm)
    (by decide)

/-! ## Truncating division and the bucket grid -/

theorem tdiv_nonpos_of_nonpos {a w : ℤ} (ha : a ≤ 0) (hw : 0 ≤ w) : a.tdiv w ≤ 0 := by
  have h := Int.tdiv_nonneg (a := -a) (by omega) hw
  rw [Int.neg_tdiv] at h
  omega

theorem tdiv_le_tdiv_of_le {a b w : ℤ} (hw : 0 < w) (h : a ≤ b) :
    a.tdiv w ≤ b.tdiv w := by
  rcases le_or_lt 0 a with ha | ha
  · rw [Int.tdiv_eq_ediv ha hw.le, Int.tdiv_eq_ediv (ha.trans h) hw.le]
    exact Int.ediv_le_ediv hw h
  · rcases le_or_lt 0 b with hb | hb
    · exact le_trans (tdiv_nonpos_of_nonpos ha.le hw.le) (Int.tdiv_nonneg hb hw.le)
    · have ha' : (-a).tdiv w = -(a.tdiv w) := Int.neg_tdiv a w
      have hb' : (-b).tdiv w = -(b.tdiv w) := Int.neg_tdiv b w
      rw [Int.tdiv_eq_ediv (by omega) hw.le] at ha'
      rw [Int.tdiv_eq_ediv (by omega) hw.le] at hb'
      have := Int.ediv_le_ediv hw (show -b ≤ -a by omega)
      omega

theorem bucketStart_mono {a b w : ℤ} (hw : 0 < w) (h : a ≤ b) :
    bucketStart a w ≤ bucketStart b w :=
  mul_le_mul_of_nonneg_right (tdiv_le_tdiv_of_le hw h) hw.le

theorem foldl_min_le_init {α : Type _} [LinearOrder α] (l : List α) (a : α) :
    l.foldl min a ≤ a := by
  induction l generalizing a with
  | nil => exact le_refl a
  | cons y t ih => exact le_trans (ih (min a y)) (min_le_left a y)

theorem foldl_min_le_mem {α : Type _} [LinearOrder α] {l : List α} {x : α}
    (h : x ∈ l) (a : α) : l.foldl min a ≤ x := by
  induction l generalizing a with
  | nil => cases h
  | cons y t ih =>
    rcases List.mem_cons.mp h with rfl | hx
    · exact le_trans (foldl_min_le_init t (min a x)) (min_le_right a x)
    · exact ih hx (min a y)

theorem init_le_foldl_max {α : Type _} [LinearOrder α] (l : List α) (a : α) :
    a ≤ l.foldl max a := by
  induction l generalizing a with
  | nil => exact le_refl a
  | cons y t ih => exact le_trans (le_max_left a y) (ih (max a y))

theorem mem_le_foldl_max {α : Type _} [LinearOrder α] {l : List α} {x : α}
    (h : x ∈ l) (a : α) : x ≤ l.foldl max a := by
  induction l generalizing a with
  | nil => cases h
  | cons y t ih =>
    rcases List.mem_cons.mp h with rfl | hx
    · exact le_trans (le_max_right a x) (init_le_foldl_max t (max a x))
    · exact ih hx (max a y)

theorem minTimestamp_le_maxTimestamp {msgs : List UnifiedMessage} (hne : msgs ≠ []) :
    minTimestamp msgs ≤ maxTimestamp msgs := by
  obtain ⟨m, hm⟩ := List.exists_mem_of_ne_nil msgs hne
  have hmem : m.timestamp ∈ msgs.map (·.timestamp) := List.mem_map_of_mem _ hm
  exact le_trans (foldl_min_le_mem hmem i64Max) (mem_le_foldl_max hmem i64Min)

theorem bucketStart_sub_tdiv {a b w : ℤ} (hw : 0 < w) :
    (bucketStart b w - bucketStart a w).tdiv w = b.tdiv w - a.tdiv w := by
  unfold bucketStart
  rw [← sub_mul, Int.mul_tdiv_cancel _ hw.ne']

theorem bucketAt_start (msgs : List UnifiedMessage) (w cur : ℤ) :
    (bucketAt msgs w cur).start_ms = cur := by
  unfold bucketAt
  cases bucketAccumulator msgs cur w <;> rfl

theorem bucketAt_end (msgs : List UnifiedMessage) (w cur : ℤ) :
    (bucketAt msgs w cur).end_ms = cur + w := by
  unfold bucketAt
  cases bucketAccumulator msgs cur w <;> rfl

theorem aggregate_by_interval_eq (msgs : List UnifiedMessage) (w : ℤ)
    (hne : msgs ≠ []) (hw : 0 < w) :
    aggregate_by_interval msgs w =
      (List.range ((maxTimestamp msgs).tdiv w - (minTimestamp msgs).tdiv w + 1).toNat).map
        (fun i : ℕ =>
          bucketAt msgs w (bucketStart (minTimestamp msgs) w + (i : ℤ) * w)) := by
  simp only [aggregate_by_interval, if_neg hne, bucketStart_sub_tdiv hw]

theorem aggregate_length (msgs : List UnifiedMessage) (w : ℤ)
    (hne : msgs ≠ []) (hw : 0 < w) :
    ((aggregate_by_interval msgs w).length : ℤ) =
      (maxTimestamp msgs).tdiv w - (minTimestamp msgs).tdiv w + 1 := by
  rw [aggregate_by_interval_eq msgs w hne hw]
  have hq : (minTimestamp msgs).tdiv w ≤ (maxTimestamp msgs).tdiv w :=
    tdiv_le_tdiv_of_le hw (minTimestamp_le_maxTimestamp hne)
  simp only [List.length_map, List.length_range]
  omega

/-! ## C2 -/

/-- A message with a pre-epoch timestamp. -/
def cxMsgNeg : UnifiedMessage :=
  { source := "test", model_id := "m", provider_id := "p", session_id := "s",
    timestamp := -1, date := "1969-12-31", tokens := ⟨1, 0, 0, 0, 0⟩, cost := 0 }

/-- C2 counterexample: for the message at timestamp `-1` and width 1000,
the materialized bucket start is `0` (Rust `i64` division truncates toward
zero), while the floor-aligned start `floor(-1 / 1000) * 1000` claimed by
the spec is `-1000`. -/
theorem c2_counterexample :
    (aggregate_by_interval [cxMsgNeg] 1000).map (·.start_ms) = [0] ∧
    Int.fdiv (-1) 1000 * 1000 = -1000 ∧ (0 : ℤ) ≠ -1000 := by
  refine ⟨?_, by decide, by decide⟩
  rfl

/-- C2 (amended): bucket assignment aligns timestamps with Rust's
truncating division — `bucket_start(ts) = trunc(ts / width) * width` —
which coincides with the claimed floor alignment exactly for non-negative
timestamps; and the first and last materialized bucket starts are the
so-aligned starts of the minimum and maximum message timestamps. -/
theorem c2_bucket_alignment_truncates :
    (∀ ts w : ℤ, 0 < w → 0 ≤ ts → bucketStart ts w = ts.fdiv w * w) ∧
    (∀ (msgs : List UnifiedMessage) (w : ℤ), msgs ≠ [] → 0 < w →
      ((aggregate_by_interval msgs w).map (·.start_ms)).head? =
        some (bucketStart (minTimestamp msgs) w) ∧
      ((aggregate_by_interval msgs w).map (·.start_ms)).getLast? =
        some (bucketStart (maxTimestamp msgs) w)) := by
  constructor
  · intro ts w hw hts
    unfold bucketStart
    rw [Int.tdiv_eq_ediv hts hw.le, Int.fdiv_eq_ediv _ hw.le]
  · intro msgs w hne hw
    have hq : (minTimestamp msgs).tdiv w ≤ (maxTimestamp msgs).tdiv w :=
      tdiv_le_tdiv_of_le hw (minTimestamp_le_maxTimestamp hne)
    rw [aggregate_by_interval_eq msgs w hne hw, List.map_map]
    have h0 : 0 < ((maxTimestamp msgs).tdiv w - (minTimestamp msgs).tdiv w + 1).toNat := by
      omega
    constructor
    · rw [List.head?_eq_getElem?, List.getElem?_map, List.getElem?_range h0]
      simp [bucketAt_start]
    · rw [List.getLast?_eq_getElem?, List.length_map, List.length_range,
        List.getElem?_map, List.getElem?_range (by omega)]
      simp only [Option.map_some', Function.comp_apply, bucketAt_start,
        Option.some.injEq]
      have hcast : ((((maxTimestamp msgs).tdiv w - (minTimestamp msgs).tdiv w + 1).toNat
          - 1 : ℕ) : ℤ) = (maxTimestamp msgs).tdiv w - (minTimestamp msgs).tdiv w := by
        omega
      rw [hcast]
      unfold bucketStart
      ring

/-- C2 witness: the amended alignment applied to the non-negative
timestamp 6500 with width 1000, and to a concrete two-message collection. -/
theorem c2_witness :
    bucketStart 6500 1000 = Int.fdiv 6500 1000 * 1000 ∧
    ((aggregate_by_interval [cxMsgA, cxMsgB] 1000).map (·.start_ms)).head? =
      some (bucketStart (minTimestamp [cxMsgA, cxMsgB]) 1000) ∧
    ((aggregate_by_interval [cxMsgA, cxMsgB] 1000).map (·.start_ms)).getLast? =
      some (bucketStart (maxTimestamp [cxMsgA, cxMsgB]) 1000) :=
  ⟨c2_bucket_alignment_truncates.1 6500 1000 (by decide) (by decide),
    c2_bucket_alignment_truncates.2 [cxMsgA, cxMsgB] 1000 (List.cons_ne_nil _ _)
      (by decide)⟩

/-! ## C3 -/

/-- C3: for a non-empty collection and positive width the output is the
contiguous, strictly ascending arithmetic grid of bucket starts stepping by
the width from the first aligned start to the last (one bucket per grid
point, each of span `w`), buckets in which no message falls are all-zero
with no rate stats, and the empty collection yields the empty sequence. -/
theorem c3_gap_free_materialization :
    (∀ w : ℤ, aggregate_by_interval [] w = []) ∧
    (∀ (msgs : List UnifiedMessage) (w : ℤ), msgs ≠ [] → 0 < w →
      (aggregate_by_interval msgs w).map (·.start_ms) =
        (List.range (aggregate_by_interval msgs w).length).map
          (fun i : ℕ => bucketStart (minTimestamp msgs) w + (i : ℤ) * w) ∧
      aggregate_by_interval msgs w ≠ [] ∧
      bucketStart (minTimestamp msgs) w +
          (((aggregate_by_interval msgs w).length : ℤ) - 1) * w =
        bucketStart (maxTimestamp msgs) w ∧
      (∀ b ∈ aggregate_by_interval msgs w, b.end_ms = b.start_ms + w) ∧
      List.Pairwise (fun b b' => b.start_ms < b'.start_ms)
        (aggregate_by_interval msgs w) ∧
      (∀ b ∈ aggregate_by_interval msgs w,
        (∀ m ∈ msgs, bucketStart m.timestamp w ≠ b.start_ms) →
        b.token_breakdown = TokenBreakdown.zero ∧ b.messages = 0 ∧
          b.cost_micros = 0 ∧ b.rate_stats = none)) := by
  constructor
  · intro w
    rfl
  · intro msgs w hne hw
    have hq : (minTimestamp msgs).tdiv w ≤ (maxTimestamp msgs).tdiv w :=
      tdiv_le_tdiv_of_le hw (minTimestamp_le_maxTimestamp hne)
    have hlen := aggregate_length msgs w hne hw
    refine ⟨?_, ?_, ?_, ?_, ?_, ?_⟩
    · rw [aggregate_by_interval_eq msgs w hne hw, List.map_map, List.length_map,
        List.length_range]
      refine List.map_congr_left ?_
      intro i _
      simp [bucketAt_start]
    · have : 0 < (aggregate_by_interval msgs w).length := by omega
      exact List.ne_nil_of_length_pos this
    · have h1 : ((aggregate_by_interval msgs w).length : ℤ) - 1 =
          (maxTimestamp msgs).tdiv w - (minTimestamp msgs).tdiv w := by omega
      rw [h1]
      unfold bucketStart
      ring
    · intro b hb
      rw [aggregate_by_interval_eq msgs w hne hw] at hb
      obtain ⟨i, _, rfl⟩ := List.mem_map.mp hb
      rw [bucketAt_start, bucketAt_end]
    · rw [aggregate_by_interval_eq msgs w hne hw]
      refine List.pairwise_map.mpr ?_
      refine (List.pairwise_lt_range _).imp ?_
      intro i j hij
      rw [bucketAt_start, bucketAt_start]
      have hij' : (i : ℤ) < (j : ℤ) := by exact_mod_cast hij
      exact add_lt_add_left (mul_lt_mul_of_pos_right hij' hw) _
    · intro b hb hnomsg
      rw [aggregate_by_interval_eq msgs w hne hw] at hb
      obtain ⟨i, _, rfl⟩ := List.mem_map.mp hb
      rw [bucketAt_start] at hnomsg
      have hfil : msgs.filter (fun m =>
          bucketStart m.timestamp w ==
            bucketStart (minTimestamp msgs) w + (i : ℤ) * w) = [] := by
        refine List.filter_eq_nil_iff.mpr ?_
        intro m hm
        simpa using hnomsg m hm
      have hacc : bucketAccumulator msgs
          (bucketStart (minTimestamp msgs) w + (i : ℤ) * w) w = none := by
        simp [bucketAccumulator, hfil]
      simp only [bucketAt, hacc]
      exact ⟨rfl, rfl, rfl, rfl⟩

/-- C3 witness: the materialization facts applied to the two-message
collection at timestamps 0 and 1000 with width 1000. -/
theorem c3_witness :
    (aggregate_by_interval [cxMsgA, cxMsgB] 1000).map (·.start_ms) =
      (List.range (aggregate_by_interval [cxMsgA, cxMsgB] 1000).length).map
        (fun i : ℕ => bucketStart (minTimestamp [cxMsgA, cxMsgB]) 1000 + (i : ℤ) * 1000) ∧
    aggregate_by_interval [cxMsgA, cxMsgB] 1000 ≠ [] ∧
    bucketStart (minTimestamp [cxMsgA, cxMsgB]) 1000 +
        (((aggregate_by_interval [cxMsgA, cxMsgB] 1000).length : ℤ) - 1) * 1000 =
      bucketStart (maxTimestamp [cxMsgA, cxMsgB]) 1000 ∧
    (∀ b ∈ aggregate_by_interval [cxMsgA, cxMsgB] 1000, b.end_ms = b.start_ms + 1000) ∧
    List.Pairwise (fun b b' => b.start_ms < b'.start_ms)
      (aggregate_by_interval [cxMsgA, cxMsgB] 1000) ∧
    (∀ b ∈ aggregate_by_interval [cxMsgA, cxMsgB] 1000,
      (∀ m ∈ [cxMsgA, cxMsgB], bucketStart m.timestamp 1000 ≠ b.start_ms) →
      b.token_breakdown = TokenBreakdown.zero ∧ b.messages = 0 ∧
        b.cost_micros = 0 ∧ b.rate_stats = none) :=
  c3_gap_free_materialization.2 [cxMsgA, cxMsgB] 1000 (List.cons_ne_nil _ _) (by decide)

/-! ## C5 -/

theorem truncQ_eq_floor_of_nonneg {q : ℚ} (h : 0 ≤ q) : truncQ q = ⌊q⌋ := by
  unfold truncQ
  rw [Int.tdiv_eq_ediv (Rat.num_nonneg.mpr h) (Int.ofNat_nonneg _)]
  exact Rat.floor_def.symm

/-- A message whose cost lands `cost * 1e6` exactly on a half-integer. -/
def cxMsgTiny : UnifiedMessage :=
  { source := "test", model_id := "m", provider_id := "p", session_id := "s",
    timestamp := 0, date := "2024-01-01", tokens := ⟨1, 0, 0, 0, 0⟩,
    cost := 3 / 2000000 }

/-- C5 counterexample: a single message of cost `3/2000000` gives a bucket
whose `cost_micros` is `1` — `(cost * 1e6) as i64` truncates `1.5` toward
zero — while the claimed `round(cost * 1_000_000)` is `2`. -/
theorem c5_counterexample :
    (aggregate_by_interval [cxMsgTiny] 1000).map (·.cost_micros) = [1] ∧
    round ((3 / 2000000 : ℚ) * 1000000) = 2 ∧ (1 : ℤ) ≠ 2 := by
  refine ⟨?_, by norm_num [round_eq], by decide⟩
  have h1 : (aggregate_by_interval [cxMsgTiny] 1000).map (·.cost_micros) =
      [f64AsI64 ((0 + 3 / 2000000 : ℚ) * 1000000)] := rfl
  rw [h1]
  have hq : ((0 : ℚ) + 3 / 2000000) * 1000000 = 3 / 2 := by norm_num
  rw [f64AsI64, hq, truncQ_eq_floor_of_nonneg (by norm_num)]
  have hfl : ⌊(3 / 2 : ℚ)⌋ = 1 := by
    rw [Int.floor_eq_iff]
    norm_num
  rw [hfl]
  decide

/-- C5 (amended): every bucket of `aggregate_by_interval` in which at least
one message falls carries `cost_micros` equal to the sum of the costs of
the messages in its bucket, times `1e6`, truncated toward zero (and clamped
into the `i64` range) — truncation, not rounding, is what the `as i64` cast
performs. -/
theorem c5_cost_micros_truncated :
    ∀ (msgs : List UnifiedMessage) (w : ℤ) (b : IntervalBucket),
      b ∈ aggregate_by_interval msgs w → b.messages ≠ 0 →
      b.cost_micros = clamp64 (truncQ
        (costSum (msgs.filter (fun m => bucketStart m.timestamp w == b.start_ms)) *
          1000000)) := by
  intro msgs w b hb hbm
  by_cases hmsgs : msgs = []
  · subst hmsgs
    simp [aggregate_by_interval] at hb
  · simp only [aggregate_by_interval, if_neg hmsgs, List.mem_map] at hb
    obtain ⟨i, _, rfl⟩ := hb
    rcases hacc : bucketAccumulator msgs
        (bucketStart (minTimestamp msgs) w + (i : ℤ) * w) w with _ | acc
    · exfalso
      apply hbm
      simp [bucketAt, hacc, emptyIntervalBucket]
    · have hstart : (bucketAt msgs w
          (bucketStart (minTimestamp msgs) w + (i : ℤ) * w)).start_ms =
          bucketStart (minTimestamp msgs) w + (i : ℤ) * w := bucketAt_start _ _ _
      have hgrp : ¬ (msgs.filter (fun m => bucketStart m.timestamp w ==
          bucketStart (minTimestamp msgs) w + (i : ℤ) * w) = []) := by
        intro hnil
        rw [bucketAccumulator, hnil] at hacc
        simp at hacc
      have hacc' : acc = (msgs.filter (fun m => bucketStart m.timestamp w ==
          bucketStart (minTimestamp msgs) w + (i : ℤ) * w)).foldl
          IntervalAccumulator.add_message IntervalAccumulator.empty := by
        rw [bucketAccumulator, if_neg hgrp] at hacc
        exact (Option.some.injEq _ _ ▸ hacc).symm
      have hcost : acc.cost = costSum (msgs.filter (fun m =>
          bucketStart m.timestamp w ==
            bucketStart (minTimestamp msgs) w + (i : ℤ) * w)) := by
        rw [hacc', interval_foldl_cost]
        simp only [show IntervalAccumulator.empty.cost = (0 : ℚ) from rfl, zero_add]
      have hbuck : bucketAt msgs w (bucketStart (minTimestamp msgs) w + (i : ℤ) * w) =
          acc.into_bucket (bucketStart (minTimestamp msgs) w + (i : ℤ) * w) w := by
        simp [bucketAt, hacc]
      rw [hstart, hbuck]
      show f64AsI64 (acc.cost * 1000000) = _
      rw [hcost]
      rfl

/-- C5 witness: the truncation law applied to the single-message collection
whose bucket cost is `3/2000000`. -/
theorem c5_witness :
    (bucketAt [cxMsgTiny] 1000 0).cost_micros = clamp64 (truncQ
      (costSum ([cxMsgTiny].filter (fun m => bucketStart m.timestamp 1000 ==
        (bucketAt [cxMsgTiny] 1000 0).start_ms)) * 1000000)) :=
  c5_cost_micros_truncated [cxMsgTiny] 1000 (bucketAt [cxMsgTiny] 1000 0)
    (by
      rw [show aggregate_by_interval [cxMsgTiny] 1000 = [bucketAt [cxMsgTiny] 1000 0]
        from rfl]
      exact List.mem_singleton.mpr rfl)
    (by decide)

/-! ## C6 -/

/-- The intensity classification exactly as the spec words it: `0` when the
cost is exactly 0; `1` for ratio in `(0, 0.25)`; `2` for `[0.25, 0.5)`;
`3` for `[0.5, 0.75)`; `4` for `[0.75, 1]` (the ratio never exceeds 1). -/
def specIntensity (cost max_cost : ℚ) : ℤ :=
  if cost = 0 then 0
  else if cost / max_cost < 1 / 4 then 1
  else if cost / max_cost < 1 / 2 then 2
  else if cost / max_cost < 3 / 4 then 3
  else 4

/-- C6: with non-negative daily costs, `calculate_intensities` leaves the
list untouched (intensities at their default) when every day has zero cost,
and otherwise rewrites each day's intensity to the spec's ordinal bucket of
`cost / max_cost` (whose ratio is at most 1), changing nothing else. -/
theorem c6_intensity_classification :
    ∀ cs : List DailyContribution, (∀ c ∈ cs, 0 ≤ c.totals.cost) →
      (maxDailyCost cs = 0 → calculate_intensities cs = cs) ∧
      (maxDailyCost cs ≠ 0 →
        List.Forall₂ (fun c c' =>
          c'.intensity = specIntensity c.totals.cost (maxDailyCost cs) ∧
          c.totals.cost / maxDailyCost cs ≤ 1 ∧
          c'.date = c.date ∧ c'.totals = c.totals ∧
          c'.token_breakdown = c.token_breakdown ∧ c'.sources = c.sources)
          cs (calculate_intensities cs)) := by
  intro cs hpos
  constructor
  · intro h0
    simp only [calculate_intensities]
    rw [if_pos h0]
  · intro hne
    have hm0 : 0 ≤ maxDailyCost cs := by
      unfold maxDailyCost
      exact init_le_foldl_max _ 0
    have hm : 0 < maxDailyCost cs := lt_of_le_of_ne hm0 (Ne.symm hne)
    simp only [calculate_intensities]
    rw [if_neg hne]
    refine List.forall₂_map_right_iff.mpr (List.forall₂_same.mpr ?_)
    intro c hc
    have hc' : 0 ≤ c.totals.cost := hpos c hc
    have hle : c.totals.cost ≤ maxDailyCost cs := by
      unfold maxDailyCost
      exact mem_le_foldl_max (List.mem_map_of_mem (fun x => x.totals.cost) hc) 0
    have hratio : c.totals.cost / maxDailyCost cs ≤ 1 := (div_le_one hm).mpr hle
    refine ⟨?_, hratio, rfl, rfl, rfl, rfl⟩
    show (if c.totals.cost / maxDailyCost cs ≥ 3 / 4 then (4 : ℤ)
        else if c.totals.cost / maxDailyCost cs ≥ 1 / 2 then 3
        else if c.totals.cost / maxDailyCost cs ≥ 1 / 4 then 2
        else if c.totals.cost / maxDailyCost cs > 0 then 1 else 0) =
      specIntensity c.totals.cost (maxDailyCost cs)
    by_cases hc0 : c.totals.cost = 0
    · have hq' : c.totals.cost / maxDailyCost cs = 0 := by rw [hc0, zero_div]
      simp only [specIntensity, if_pos hc0, hq']
      norm_num
    · have hqpos : 0 < c.totals.cost / maxDailyCost cs :=
        div_pos (lt_of_le_of_ne hc' (Ne.symm hc0)) hm
      simp only [specIntensity, if_neg hc0]
      split_ifs <;> first | rfl | linarith

/-- Concrete daily contributions for the intensity witness. -/
def demoContribution (d : String) (c : ℚ) : DailyContribution :=
  { date := d, totals := { tokens := 1, cost := c, messages := 1 }, intensity := 0,
    token_breakdown := TokenBreakdown.zero, sources := [] }

def demoContributions : List DailyContribution :=
  [demoContribution "2024-01-01" 0, demoContribution "2024-01-02" 1,
    demoContribution "2024-01-03" 2, demoContribution "2024-01-04" 4]

/-- C6 witness: the classification applied to four concrete days of costs
0, 1, 2, 4. -/
theorem c6_witness :
    List.Forall₂ (fun c c' =>
      c'.intensity = specIntensity c.totals.cost (maxDailyCost demoContributions) ∧
      c.totals.cost / maxDailyCost demoContributions ≤ 1 ∧
      c'.date = c.date ∧ c'.totals = c.totals ∧
      c'.token_breakdown = c.token_breakdown ∧ c'.sources = c.sources)
      demoContributions (calculate_intensities demoContributions) :=
  (c6_intensity_classification demoContributions (by decide)).2 (by decide)

/-! ## C7 -/

/-- The genuine maximum of a non-empty rate list (0 for the empty list). -/
def specMaxQ : List ℚ → ℚ
  | [] => 0
  | x :: xs => xs.foldl max x

/-- The genuine minimum of a non-empty rate list (0 for the empty list). -/
def specMinQ : List ℚ → ℚ
  | [] => 0
  | x :: xs => xs.foldl min x

theorem foldl_max_eq_specMax {l : List ℚ} (hne : l ≠ []) (h : ∀ r ∈ l, 0 ≤ r) :
    l.foldl max 0 = specMaxQ l := by
  cases l with
  | nil => exact absurd rfl hne
  | cons x xs =>
    show xs.foldl max (max 0 x) = xs.foldl max x
    rw [max_eq_right (h x (List.mem_cons_self x xs))]

theorem foldl_min_eq_specMin {l : List ℚ} (hne : l ≠ []) (h : ∀ r ∈ l, r < f64Max) :
    l.foldl min f64Max = specMinQ l := by
  cases l with
  | nil => exact absurd rfl hne
  | cons x xs =>
    show xs.foldl min (min f64Max x) = xs.foldl min x
    rw [min_eq_right (le_of_lt (h x (List.mem_cons_self x xs)))]

theorem specMinQ_lt_f64Max {l : List ℚ} (hne : l ≠ []) (h : ∀ r ∈ l, r < f64Max) :
    specMinQ l < f64Max := by
  cases l with
  | nil => exact absurd rfl hne
  | cons x xs =>
    show xs.foldl min x < f64Max
    exact lt_of_le_of_lt (foldl_min_le_init xs x) (h x (List.mem_cons_self x xs))

theorem consecRates_length : ∀ l : List (ℤ × ℤ), (consecRates l).length = l.length - 1
  | [] => rfl
  | [_] => rfl
  | p :: q :: rest => by
    show (consecRates (q :: rest)).length + 1 = (p :: q :: rest).length - 1
    rw [consecRates_length (q :: rest)]
    simp only [List.length_cons]
    omega

theorem consecRates_mem : ∀ (l : List (ℤ × ℤ)) (r : ℚ), r ∈ consecRates l →
    ∃ p q : ℤ × ℤ, p ∈ l ∧ q ∈ l ∧
      r = (q.2 : ℚ) / ((clampRange (q.1 - p.1) 5000 1800000 : ℤ) / 60000 : ℚ)
  | [], r, h => by simp [consecRates] at h
  | [p], r, h => by simp [consecRates] at h
  | p :: q :: rest, r, h => by
    rcases List.mem_cons.mp h with rfl | h'
    · exact ⟨p, q, List.mem_cons_self _ _,
        List.mem_cons.mpr (Or.inr (List.mem_cons_self _ _)), rfl⟩
    · obtain ⟨p', q', hp', hq', hr⟩ := consecRates_mem (q :: rest) r h'
      exact ⟨p', q', List.mem_cons.mpr (Or.inr hp'), List.mem_cons.mpr (Or.inr hq'), hr⟩

theorem rate_bounds {p q : ℤ × ℤ} (h0 : 0 ≤ q.2) (h1 : q.2 ≤ i64Max) :
    0 ≤ (q.2 : ℚ) / ((clampRange (q.1 - p.1) 5000 1800000 : ℤ) / 60000 : ℚ) ∧
    (q.2 : ℚ) / ((clampRange (q.1 - p.1) 5000 1800000 : ℤ) / 60000 : ℚ) < f64Max := by
  have hdt : 5000 ≤ clampRange (q.1 - p.1) 5000 1800000 ∧
      clampRange (q.1 - p.1) 5000 1800000 ≤ 1800000 := by
    unfold clampRange
    omega
  set dt : ℤ := clampRange (q.1 - p.1) 5000 1800000 with hdtdef
  have hdtQ : (5000 : ℚ) ≤ (dt : ℚ) := by exact_mod_cast hdt.1
  have hq2 : (0 : ℚ) ≤ (q.2 : ℚ) := by exact_mod_cast h0
  have hq2' : (q.2 : ℚ) ≤ (i64Max : ℚ) := by exact_mod_cast h1
  have hdtpos : (0 : ℚ) < (dt : ℚ) := lt_of_lt_of_le (by norm_num) hdtQ
  have hpos : (0 : ℚ) < (dt : ℚ) / 60000 := div_pos hdtpos (by norm_num)
  constructor
  · exact div_nonneg hq2 hpos.le
  · have h12 : (q.2 : ℚ) / ((dt : ℚ) / 60000) ≤ (q.2 : ℚ) * 12 := by
      rw [div_le_iff₀ hpos]
      have hkey : (q.2 : ℚ) * 5000 ≤ (q.2 : ℚ) * (dt : ℚ) :=
        mul_le_mul_of_nonneg_left hdtQ hq2
      nlinarith
    have h2 : (q.2 : ℚ) * 12 ≤ (i64Max : ℚ) * 12 :=
      mul_le_mul_of_nonneg_right hq2' (by norm_num)
    have h3 : (i64Max : ℚ) * 12 < f64Max := by
      norm_num [i64Max, f64Max]
    exact lt_of_le_of_lt h12 (lt_of_le_of_lt h2 h3)

/-- The average rate the spec prescribes for a bucket:
`total tokens in bucket / (interval_width_ms / 60000)`. -/
def specAvgRate (a : IntervalAccumulator) (w : ℤ) : ℚ :=
  ((a.token_breakdown.input + a.token_breakdown.output + a.token_breakdown.cache_read +
    a.token_breakdown.cache_write + a.token_breakdown.reasoning : ℤ) : ℚ) /
    ((w : ℚ) / 60000)

/-- C7: a bucket with exactly one retained message reports
`max = min = avg`; a bucket with at least two retained messages (with
non-negative in-range token counts) reports the spec's statistics — pairs
sorted by timestamp, consecutive rates through the `5s..30min` clamp, and
`max/min` equal to the genuine maximum/minimum consecutive rate clamped
against the average. -/
theorem c7_rate_statistics :
    ∀ (a : IntervalAccumulator) (w : ℤ),
      (a.message_data.length = 1 →
        a.calculate_rate_stats w =
          some ⟨specAvgRate a w, specAvgRate a w, specAvgRate a w⟩) ∧
      (2 ≤ a.message_data.length →
        (∀ p ∈ a.message_data, 0 ≤ p.2 ∧ p.2 ≤ i64Max) →
        a.calculate_rate_stats w =
          some ⟨specAvgRate a w,
            max (specMaxQ (consecRates
              (a.message_data.mergeSort (fun p q => decide (p.1 ≤ q.1)))))
              (specAvgRate a w),
            min (specMinQ (consecRates
              (a.message_data.mergeSort (fun p q => decide (p.1 ≤ q.1)))))
              (specAvgRate a w)⟩) := by
  intro a w
  constructor
  · intro h1
    have hne : a.message_data ≠ [] := by
      intro h
      rw [h] at h1
      simp at h1
    simp only [IntervalAccumulator.calculate_rate_stats]
    rw [if_neg hne, if_pos h1]
    rfl
  · intro h2 hbounds
    have hne : a.message_data ≠ [] := by
      intro h
      rw [h] at h2
      simp at h2
    have hlen1 : ¬ a.message_data.length = 1 := by omega
    have hsortmem : ∀ p ∈ a.message_data.mergeSort (fun p q => decide (p.1 ≤ q.1)),
        0 ≤ p.2 ∧ p.2 ≤ i64Max := by
      intro p hp
      exact hbounds p ((List.mergeSort_perm a.message_data _).mem_iff.mp hp)
    have hratesne : consecRates
        (a.message_data.mergeSort (fun p q => decide (p.1 ≤ q.1))) ≠ [] := by
      have hl := consecRates_length
        (a.message_data.mergeSort (fun p q => decide (p.1 ≤ q.1)))
      rw [List.length_mergeSort] at hl
      intro h
      rw [h] at hl
      simp at hl
      omega
    have hrates : ∀ r ∈ consecRates
        (a.message_data.mergeSort (fun p q => decide (p.1 ≤ q.1))),
        0 ≤ r ∧ r < f64Max := by
      intro r hr
      obtain ⟨p, q, _, hq, rfl⟩ := consecRates_mem _ r hr
      exact rate_bounds (hsortmem q hq).1 (hsortmem q hq).2
    have hmax := foldl_max_eq_specMax hratesne (fun r hr => (hrates r hr).1)
    have hmin := foldl_min_eq_specMin hratesne (fun r hr => (hrates r hr).2)
    have hltf := specMinQ_lt_f64Max hratesne (fun r hr => (hrates r hr).2)
    simp only [IntervalAccumulator.calculate_rate_stats]
    rw [if_neg hne, if_neg hlen1, hmax, hmin, if_neg (ne_of_lt hltf)]
    rfl

/-- The accumulator of the two-message bucket used in the rate witness. -/
def demoRateAcc : IntervalAccumulator :=
  [cxMsgA, cxMsgB].foldl IntervalAccumulator.add_message IntervalAccumulator.empty

/-- C7 witness: the multi-message rate statistics applied to the concrete
two-message accumulator over a one-minute interval. -/
theorem c7_witness :
    demoRateAcc.calculate_rate_stats 60000 =
      some ⟨specAvgRate demoRateAcc 60000,
        max (specMaxQ (consecRates
          (demoRateAcc.message_data.mergeSort (fun p q => decide (p.1 ≤ q.1)))))
          (specAvgRate demoRateAcc 60000),
        min (specMinQ (consecRates
          (demoRateAcc.message_data.mergeSort (fun p q => decide (p.1 ≤ q.1)))))
          (specAvgRate demoRateAcc 60000)⟩ :=
  (c7_rate_statistics demoRateAcc 60000).2 (by decide) (by decide)

/-! ## C4 and C9 -/

/-- The test pricing entry: rates 3 / 15 / 0.3 / 3.75 per 1e6 tokens. -/
def sonnetPricing : ModelPricing :=
  { input_cost_per_token := 3 / 1000000
    output_cost_per_token := 15 / 1000000
    cache_read_input_token_cost := 3 / 10000000
    cache_creation_input_token_cost := 375 / 100000000 }

def testPricingData : PricingData :=
  { models := [("claude-3-5-sonnet-20241022", sonnetPricing)] }

def anthPricingData : PricingData :=
  { models := [("anthropic/claude-3-5-sonnet-20241022", sonnetPricing)] }

def emptyPricingData : PricingData := { models := [] }

/-- C4: whenever the resolution chain yields a pricing entry, the computed
cost is `input*input_rate + (output+reasoning)*output_rate +
cache_read*cache_read_rate + cache_write*cache_write_rate` (reasoning
billed at the output rate); and the concrete catalog with rates
`{3, 15, 0.3, 3.75} per 1e6` on tokens `{1000, 500, 2000, 100, 0}` costs
exactly `459/40000 = 0.011475`. -/
theorem c4_cost_formula :
    (∀ (d : PricingData) (model_id : String) (pricing : ModelPricing),
      d.get_pricing model_id = some pricing →
      ∀ input output cache_read cache_write reasoning : ℤ,
        d.calculate_cost model_id input output cache_read cache_write reasoning =
          (input : ℚ) * pricing.input_cost_per_token
            + ((output + reasoning : ℤ) : ℚ) * pricing.output_cost_per_token
            + (cache_read : ℚ) * pricing.cache_read_input_token_cost
            + (cache_write : ℚ) * pricing.cache_creation_input_token_cost) ∧
    testPricingData.calculate_cost "claude-3-5-sonnet-20241022" 1000 500 2000 100 0 =
      459 / 40000 := by
  constructor
  · intro d model_id pricing h input output cache_read cache_write reasoning
    simp only [PricingData.calculate_cost, h]
  · have hres : testPricingData.get_pricing "claude-3-5-sonnet-20241022" =
        some sonnetPricing := rfl
    simp only [PricingData.calculate_cost, hres, sonnetPricing]
    norm_num

/-- C4 witness: the formula applied to the concrete catalog entry. -/
theorem c4_witness :
    testPricingData.calculate_cost "claude-3-5-sonnet-20241022" 1000 500 2000 100 7 =
      (1000 : ℚ) * sonnetPricing.input_cost_per_token
        + ((500 + 7 : ℤ) : ℚ) * sonnetPricing.output_cost_per_token
        + (2000 : ℚ) * sonnetPricing.cache_read_input_token_cost
        + (100 : ℚ) * sonnetPricing.cache_creation_input_token_cost :=
  c4_cost_formula.1 testPricingData "claude-3-5-sonnet-20241022" sonnetPricing rfl
    1000 500 2000 100 7

/-- C9: an unresolved model id makes `calculate_cost` return exactly `0`
for all token counts (soft-fail, no error path), and the singleton catalog
keyed `anthropic/claude-3-5-sonnet-20241022` resolves the bare id
`claude-3-5-sonnet-20241022` — not by the exact step (which fails) but by
the provider-prefix step: prepending a provider prefix to the bare id finds
the entry, and that is the entry the whole resolution chain returns. -/
theorem c9_soft_fail_and_prefix_step :
    (∀ (d : PricingData) (model_id : String)
        (input output cache_read cache_write reasoning : ℤ),
      d.get_pricing model_id = none →
      d.calculate_cost model_id input output cache_read cache_write reasoning = 0) ∧
    anthPricingData.find "claude-3-5-sonnet-20241022" = none ∧
    providerPrefixes.findSome?
        (fun pre => anthPricingData.find (pre ++ "claude-3-5-sonnet-20241022")) =
      some sonnetPricing ∧
    anthPricingData.get_pricing "claude-3-5-sonnet-20241022" = some sonnetPricing := by
  refine ⟨?_, rfl, rfl, rfl⟩
  intro d model_id input output cache_read cache_write reasoning h
  simp only [PricingData.calculate_cost, h]

/-- C9 witness: the soft-fail clause applied to the empty catalog and an
unknown id. -/
theorem c9_witness :
    emptyPricingData.calculate_cost "mystery-model" 5 6 7 8 9 = 0 :=
  c9_soft_fail_and_prefix_step.1 emptyPricingData "mystery-model" 5 6 7 8 9 (by decide)

/-! ## C8 -/

/-- Version marker `4.5`/`4-5`. -/
def marker45 (l : String) : Bool := strContains l "4.5" || strContains l "4-5"

/-- Version marker `3.7`/`3-7`. -/
def marker37 (l : String) : Bool := strContains l "3.7" || strContains l "3-7"

/-- Version marker `3.5`/`3-5`. -/
def marker35 (l : String) : Bool := strContains l "3.5" || strContains l "3-5"

/-- Some opus rule fires: the code supports only `4-5` and `4` for opus. -/
def opusRuleMatches (l : String) : Bool :=
  strContains l "opus" && (marker45 l || strContains l "4")

/-- Some sonnet rule fires: `4-5`, `4`, `3-7` or `3-5`. -/
def sonnetRuleMatches (l : String) : Bool :=
  strContains l "sonnet" &&
    (marker45 l || strContains l "4" || marker37 l || marker35 l)

/-- Some haiku rule fires: the code supports only `4-5` for haiku. -/
def haikuRuleMatches (l : String) : Bool := strContains l "haiku" && marker45 l

/-- Some literal OpenAI/Gemini rule fires. -/
def literalRuleMatches (l : String) : Bool :=
  l == "o3" || strStartsWith l "gpt-4o" || l == "gpt-4o" ||
    strStartsWith l "gpt-4.1" || strContains l "gpt-4.1" ||
    strContains l "gemini-2.5-pro" || strContains l "gemini-2.5-flash"

/-- C8 counterexample: `claude-4-haiku` contains the family token `haiku`
combined with the version marker `4`, yet normalization yields nothing —
the haiku branch only recognizes `4.5`/`4-5` — refuting the claimed full
family-times-version rewrite table. -/
theorem c8_counterexample :
    strContains (strToLower "claude-4-haiku") "haiku" = true ∧
    strContains (strToLower "claude-4-haiku") "4" = true ∧
    normalize_cursor_model_name "claude-4-haiku" = none ∧
    normalize_cursor_model_name "claude-4-haiku" ≠ some "haiku-4" := by
  refine ⟨by decide, by decide, by decide, by decide⟩

/-- C8 (amended): name normalization implements a per-family version table
with top-down precedence — opus recognizes the markers `4-5`/`4.5` then
`4`; sonnet recognizes `4-5`/`4.5`, then `4`, then `3-7`/`3.7`, then
`3-5`/`3.5`; haiku recognizes only `4-5`/`4.5` — each rewriting to
`{family}-{version}`; and an id matching no family rule and no literal
OpenAI/Gemini rule normalizes to nothing. -/
theorem c8_normalization_table :
    ∀ s : String,
      (strContains (strToLower s) "opus" = true → marker45 (strToLower s) = true →
        normalize_cursor_model_name s = some "opus-4-5") ∧
      (strContains (strToLower s) "opus" = true → marker45 (strToLower s) = false →
        strContains (strToLower s) "4" = true →
        normalize_cursor_model_name s = some "opus-4") ∧
      (opusRuleMatches (strToLower s) = false →
        strContains (strToLower s) "sonnet" = true → marker45 (strToLower s) = true →
        normalize_cursor_model_name s = some "sonnet-4-5") ∧
      (opusRuleMatches (strToLower s) = false →
        strContains (strToLower s) "sonnet" = true → marker45 (strToLower s) = false →
        strContains (strToLower s) "4" = true →
        normalize_cursor_model_name s = some "sonnet-4") ∧
      (opusRuleMatches (strToLower s) = false →
        strContains (strToLower s) "sonnet" = true → marker45 (strToLower s) = false →
        strContains (strToLower s) "4" = false → marker37 (strToLower s) = true →
        normalize_cursor_model_name s = some "sonnet-3-7") ∧
      (opusRuleMatches (strToLower s) = false →
        strContains (strToLower s) "sonnet" = true → marker45 (strToLower s) = false →
        strContains (strToLower s) "4" = false → marker37 (strToLower s) = false →
        marker35 (strToLower s) = true →
        normalize_cursor_model_name s = some "sonnet-3-5") ∧
      (opusRuleMatches (strToLower s) = false →
        sonnetRuleMatches (strToLower s) = false →
        strContains (strToLower s) "haiku" = true → marker45 (strToLower s) = true →
        normalize_cursor_model_name s = some "haiku-4-5") ∧
      (opusRuleMatches (strToLower s) = false →
        sonnetRuleMatches (strToLower s) = false →
        haikuRuleMatches (strToLower s) = false →
        literalRuleMatches (strToLower s) = false →
        normalize_cursor_model_name s = none) := by
  intro s
  refine ⟨?_, ?_, ?_, ?_, ?_, ?_, ?_, ?_⟩
  · intro h1 h2
    simp only [marker45, Bool.or_eq_true] at h2
    rcases h2 with h2 | h2 <;> simp [normalize_cursor_model_name, h1, h2]
  · intro h1 h2 h3
    simp only [marker45, Bool.or_eq_false_iff] at h2
    simp [normalize_cursor_model_name, h1, h2.1, h2.2, h3]
  · intro h0 hs h45
    simp only [opusRuleMatches, Bool.and_eq_false_iff, Bool.or_eq_false_iff] at h0
    simp only [marker45, Bool.or_eq_true] at h45
    rcases h0 with h0 | h0'
    · rcases h45 with h45 | h45 <;>
        cases h4 : strContains (strToLower s) "4" <;>
        simp_all [normalize_cursor_model_name]
    · rcases h45 with h45 | h45 <;> simp_all [normalize_cursor_model_name, marker45]
  · intro h0 hs h45 h4
    simp only [opusRuleMatches, Bool.and_eq_false_iff, Bool.or_eq_false_iff] at h0
    simp only [marker45, Bool.or_eq_false_iff] at h45
    rcases h0 with h0 | h0' <;> simp_all [normalize_cursor_model_name, marker45]
  · intro h0 hs h45 h4 h37
    simp only [marker45, Bool.or_eq_false_iff] at h45
    simp only [marker37, Bool.or_eq_true] at h37
    rcases h37 with h37 | h37 <;>
      cases hop : strContains (strToLower s) "opus" <;>
      simp_all [normalize_cursor_model_name]
  · intro h0 hs h45 h4 h37 h35
    simp only [marker45, Bool.or_eq_false_iff] at h45
    simp only [marker37, Bool.or_eq_false_iff] at h37
    simp only [marker35, Bool.or_eq_true] at h35
    rcases h35 with h35 | h35 <;>
      cases hop : strContains (strToLower s) "opus" <;>
      simp_all [normalize_cursor_model_name]
  · intro h0 h1 hh h45
    simp only [opusRuleMatches, Bool.and_eq_false_iff, Bool.or_eq_false_iff] at h0
    simp only [sonnetRuleMatches, Bool.and_eq_false_iff, Bool.or_eq_false_iff] at h1
    simp only [marker45, Bool.or_eq_true] at h45
    rcases h0 with h0 | h0' <;> rcases h1 with h1 | h1' <;> rcases h45 with h45 | h45 <;>
      simp_all [normalize_cursor_model_name, marker45, marker37, marker35]
  · intro h0 h1 h2 h3
    simp only [opusRuleMatches, Bool.and_eq_false_iff, Bool.or_eq_false_iff] at h0
    simp only [sonnetRuleMatches, Bool.and_eq_false_iff, Bool.or_eq_false_iff] at h1
    simp only [haikuRuleMatches, Bool.and_eq_false_iff] at h2
    simp only [literalRuleMatches, Bool.or_eq_false_iff] at h3
    rcases h0 with h0 | h0' <;> rcases h1 with h1 | h1' <;> rcases h2 with h2 | h2' <;>
      simp_all [normalize_cursor_model_name, marker45, marker37, marker35]

/-- C8 witness: the table applied to concrete Cursor-style ids. -/
theorem c8_witness :
    normalize_cursor_model_name "claude-4.5-opus-thinking" = some "opus-4-5" ∧
    normalize_cursor_model_name "claude-3-5-sonnet-x" = some "sonnet-3-5" ∧
    normalize_cursor_model_name "mystery-model" = none :=
  ⟨(c8_normalization_table "claude-4.5-opus-thinking").1 (by decide) (by decide),
    ((((((c8_normalization_table "claude-3-5-sonnet-x").2).2).2).2).2).1
      (by decide) (by decide) (by decide) (by decide) (by decide) (by decide),
    (((((((c8_normalization_table "mystery-model").2).2).2).2).2).2).2
      (by decide) (by decide) (by decide) (by decide)⟩

/-! ## C10 -/

/-- Number of UTF-8 bytes of a string (what Rust's byte slice indexes). -/
def byteLen (s : String) : ℕ := (s.toList.map Char.utf8Size).sum

theorem takeBytes_none_of_short : ∀ (cs : List Char) (n : ℕ),
    (cs.map Char.utf8Size).sum < n → takeBytes cs n = none
  | _, 0 => fun h => absurd h (Nat.not_lt_zero _)
  | [], _ + 1 => fun _ => rfl
  | c :: rest, n + 1 => fun h => by
    have hsum : c.utf8Size + (rest.map Char.utf8Size).sum < n + 1 := by
      simpa using h
    by_cases hc : c.utf8Size ≤ n + 1
    · have hrec := takeBytes_none_of_short rest (n + 1 - c.utf8Size) (by omega)
      simp only [takeBytes, if_pos hc, hrec, Option.map_none']
    · simp only [takeBytes, if_neg hc]

theorem yearsFold_isSome : ∀ (cs : List DailyContribution)
    (acc : List (String × YearAccumulator)),
    (∀ c ∈ cs, (sliceFirst4 c.date).isSome) → (yearsFold cs acc).isSome
  | [], _, _ => rfl
  | c :: rest, acc, h => by
    obtain ⟨y, hy⟩ := Option.isSome_iff_exists.mp (h c (List.mem_cons_self _ _))
    rw [yearsFold, hy]
    exact yearsFold_isSome rest _ (fun c' hc' => h c' (List.mem_cons.mpr (Or.inr hc')))

theorem yearsFold_none : ∀ (cs : List DailyContribution)
    (acc : List (String × YearAccumulator)) (c : DailyContribution),
    c ∈ cs → sliceFirst4 c.date = none → yearsFold cs acc = none
  | [], _, _, hmem, _ => absurd hmem (List.not_mem_nil _)
  | c' :: rest, acc, c, hmem, hnone => by
    rcases List.mem_cons.mp hmem with rfl | hmem'
    · rw [yearsFold, hnone]
    · rw [yearsFold]
      cases sliceFirst4 c'.date with
      | none => rfl
      | some y => exact yearsFold_none rest _ c hmem' hnone

/-- C10: `calculate_years` completes (no slice panic) whenever every
contribution's date admits the 4-byte slice — i.e. is at least 4 bytes long
with a character boundary at byte 4 — and panics (modelled `none`) as soon
as some contribution's date does not, in particular whenever some date is
shorter than 4 bytes. -/
theorem c10_calculate_years_slice :
    (∀ cs : List DailyContribution, (∀ c ∈ cs, (sliceFirst4 c.date).isSome) →
      (calculate_years cs).isSome) ∧
    (∀ (cs : List DailyContribution) (c : DailyContribution), c ∈ cs →
      sliceFirst4 c.date = none → calculate_years cs = none) ∧
    (∀ s : String, byteLen s < 4 → sliceFirst4 s = none) ∧
    calculate_years [demoContribution "20" 1] = none := by
  refine ⟨?_, ?_, ?_, by decide⟩
  · intro cs h
    unfold calculate_years
    obtain ⟨v, hv⟩ := Option.isSome_iff_exists.mp (yearsFold_isSome cs [] h)
    rw [hv]
    rfl
  · intro cs c hmem hnone
    unfold calculate_years
    rw [yearsFold_none cs [] c hmem hnone]
    rfl
  · intro s h
    unfold sliceFirst4
    rw [takeBytes_none_of_short s.toList 4 h]
    rfl

/-- C10 witness: the no-panic clause applied to four concrete dated
contributions, and the panic clause applied to a 2-byte date. -/
theorem c10_witness :
    (calculate_years demoContributions).isSome ∧
    calculate_years [demoContribution "2024-01-01" 1, demoContribution "x" 1] = none ∧
    sliceFirst4 "20" = none :=
  ⟨c10_calculate_years_slice.1 demoContributions (by decide),
    c10_calculate_years_slice.2.1 _ (demoContribution "x" 1)
      (List.mem_cons.mpr (Or.inr (List.mem_cons_self _ _))) (by decide),
    c10_calculate_years_slice.2.2.1 "20" (by decide)⟩
